import Mathlib

/-!
# Verification of the route-optimisation core

Shallow embedding of `src/client/src/lib/aco-routing.ts` and
`src/client/src/lib/routing.ts` (ant-colony construction, tabu-search 2-opt
refinement, capacity-aware clustering, and the single/multi-vehicle planning
pipelines), together with proofs about the spec's claims.

Modelling conventions, fixed once for the whole file:

* JavaScript numbers are modelled as `ℚ`.  The two transcendental
  ingredients of the source — the haversine formula (`calculateDistance` /
  `calculateHaversineDistance`, built from `sin`, `cos`, `atan2`, `sqrt`,
  `π`) and `Math.pow` with the non-integer exponent `beta = 2.5` — have no
  computable rational embedding, so they enter as function parameters
  (`hav`, `rpow`).  Every theorem below is proved for *all* values of these
  parameters, which subsumes the actual transcendental functions.
* `Math.random()` is an ambient global in the source; it is modelled as an
  explicit stream `rng : ℕ → ℚ` together with a cursor that the embedding
  threads exactly along the source's call order.
* The external road-routing service (`calculateRoadRoute`, a `fetch` to
  OSRM) is a collaborator outside the core; it is a parameter
  `road : Point → Point → Option RouteSegment`, `none` standing for the
  rejected promise that makes the source fall back to the haversine
  straight line.
* `Q / ant.distance` with `ant.distance = 0` is `Infinity` in JavaScript
  and `0` in `ℚ`; the pheromone values never influence any property proved
  here (they only feed `rpow`, which is universally quantified).
* The tabu move key `` `${i}-${k}` `` is modelled as the pair `(i, k)`;
  the encoding is injective, so membership in the tabu set is unchanged.
* In the capacity clusterer the source compares
  `Math.sqrt(dx*dx + dy*dy)` values of different centroids; `Math.sqrt`
  is strictly monotone on non-negative reals, so the embedding compares
  the squared distances and selects the same centroid.  The plain k-means
  of `calculateOptimalRoutes` compares `dx*dx + dy*dy` directly in the
  source, with no square root.
-/

/-- `Point` of `src/client/src/components/PointInput.tsx`: id, display name,
longitude `x`, latitude `y`, and the optional `loadMeters` demand. -/
structure Point where
  id : String
  name : String
  x : ℚ
  y : ℚ
  loadMeters : Option ℚ
deriving DecidableEq

/-- Stand-in for JavaScript `undefined` on out-of-range array access; every
access in the embedding is proved in range where it matters. -/
def dummyPoint : Point :=
  { id := "", name := "", x := 0, y := 0, loadMeters := none }

/-- A square matrix of the source (`distanceMatrix`, `pheromoneMatrix`) as a
total function; entries outside `0..n-1` are irrelevant and read `0`. -/
def Mat : Type := ℕ → ℕ → ℚ

/-- `buildDistanceMatrix` of both `AntColonyOptimizer` and `TabuSearch`
(aco-routing.ts lines 61-79 and 217-235): for `i < j` the haversine distance
`calculateDistance(points[i].y, points[i].x, points[j].y, points[j].x)`,
mirrored to `(j, i)`; diagonal (and out-of-range cells) `0`. -/
def buildDistanceMatrix (hav : ℚ → ℚ → ℚ → ℚ → ℚ) (points : List Point) : Mat :=
  fun i j =>
    if i < j ∧ j < points.length then
      hav (points.getD i dummyPoint).y (points.getD i dummyPoint).x
          (points.getD j dummyPoint).y (points.getD j dummyPoint).x
    else if j < i ∧ i < points.length then
      hav (points.getD j dummyPoint).y (points.getD j dummyPoint).x
          (points.getD i dummyPoint).y (points.getD i dummyPoint).x
    else 0

/-- `calculateTourDistance` (aco-routing.ts lines 143-149 and 237-243): sum of
the consecutive-edge entries of the distance matrix along the tour. -/
def calculateTourDistance (D : Mat) (tour : List ℕ) : ℚ :=
  ((tour.zip tour.tail).map fun e => D e.1 e.2).sum

/-- `ACOConfig` (aco-routing.ts lines 8-15). -/
structure ACOConfig where
  numAnts : ℕ
  numIterations : ℕ
  alpha : ℚ
  beta : ℚ
  evaporationRate : ℚ
  Q : ℚ
deriving DecidableEq

/-- The constructor defaults of `AntColonyOptimizer` (aco-routing.ts lines
47-55) for `n` points. -/
def defaultACOConfig (n : ℕ) : ACOConfig :=
  { numAnts := min n 20
    numIterations := min 100 (2 * n)
    alpha := 1
    beta := 5 / 2
    evaporationRate := 1 / 2
    Q := 100 }

/-- The roulette-wheel loop of `selectNextCity` (aco-routing.ts lines
129-133): walk the probability list, skip entries that are exactly `0`,
subtract each remaining entry from `random` and return the first index
where the remainder drops to `≤ 0`; `none` when the walk falls through. -/
def rouletteLoop : List ℚ → ℚ → ℕ → Option ℕ
  | [], _, _ => none
  | p :: rest, r, i =>
    if p = 0 then rouletteLoop rest r (i + 1)
    else if r - p ≤ 0 then some i
    else rouletteLoop rest (r - p) (i + 1)

/-- The fallback of `selectNextCity` (aco-routing.ts lines 136-138): the
first unvisited index in enumeration order. -/
def firstUnvisited (n : ℕ) (visited : List ℕ) : Option ℕ :=
  (List.range n).find? fun i => i ∉ visited

/-- `selectNextCity` (aco-routing.ts lines 108-141): desirability weight
`pheromone^alpha * (1/(distance + 0.01))^beta` per unvisited city (0 for
visited ones), roulette selection on `Math.random() * sum`, falling back to
the first unvisited index, and to `0` only when every city is visited. -/
def selectNextCity (n : ℕ) (rpow : ℚ → ℚ → ℚ) (cfg : ACOConfig) (D ph : Mat)
    (current : ℕ) (visited : List ℕ) (r : ℚ) : ℕ :=
  let probs := (List.range n).map fun i =>
    if i ∈ visited then 0
    else rpow (ph current i) cfg.alpha * rpow (1 / (D current i + 1 / 100)) cfg.beta
  match rouletteLoop probs (r * probs.sum) 0 with
  | some i => i
  | none =>
    match firstUnvisited n visited with
    | some i => i
    | none => 0

/-- The `while (visited.size < n)` loop of `constructAntSolution`
(aco-routing.ts lines 95-100), with the iteration count made explicit as
fuel: each round selects the next city, appends it to the tour and marks it
visited, threading the random cursor.  Starting from `visited = [0]`, fuel
`n - 1` reproduces the source loop, because every selection is a fresh city
(proved below), so the visited set grows by one per round. -/
def antSteps (n : ℕ) (rpow : ℚ → ℚ → ℚ) (cfg : ACOConfig) (D ph : Mat) (rng : ℕ → ℚ) :
    ℕ → ℕ → List ℕ → ℕ → List ℕ × ℕ
  | 0, _, _, ri => ([], ri)
  | fuel + 1, current, visited, ri =>
    let next := selectNextCity n rpow cfg D ph current visited (rng ri)
    let rest := antSteps n rpow cfg D ph rng fuel next (next :: visited) (ri + 1)
    (next :: rest.1, rest.2)

/-- `constructAntSolution` (aco-routing.ts lines 87-106): start at the depot
(index 0), select `n - 1` further cities, close the tour at the depot, and
record the tour distance.  Returns the ant and the advanced random cursor. -/
def constructAntSolution (n : ℕ) (rpow : ℚ → ℚ → ℚ) (cfg : ACOConfig) (D ph : Mat)
    (rng : ℕ → ℚ) (ri : ℕ) : (List ℕ × ℚ) × ℕ :=
  let s := antSteps n rpow cfg D ph rng (n - 1) 0 [0] ri
  let tour := 0 :: s.1 ++ [0]
  ((tour, calculateTourDistance D tour), s.2)

/-- How many consecutive pairs of `t` traverse the edge `{i, j}`, in either
direction.  `updatePheromones` adds the deposit to `[from][to]` and to
`[to][from]` for every traversed pair, so cell `(i, j)` receives the deposit
once per pair `(i, j)` and once per pair `(j, i)`; for `i = j` both lines of
the source hit the same cell, which the double count reproduces. -/
def edgeCount (t : List ℕ) (i j : ℕ) : ℕ :=
  ((t.zip t.tail).filter fun e => e.1 = i ∧ e.2 = j).length
    + ((t.zip t.tail).filter fun e => e.1 = j ∧ e.2 = i).length

/-- `updatePheromones` (aco-routing.ts lines 151-171): evaporate every cell
by `1 - evaporationRate`, then deposit `Q / distance` per traversed edge of
every ant, in both directions. -/
def updatePheromones (cfg : ACOConfig) (ph : Mat) (ants : List (List ℕ × ℚ)) : Mat :=
  fun i j =>
    ph i j * (1 - cfg.evaporationRate)
      + (ants.map fun ant => cfg.Q / ant.2 * (edgeCount ant.1 i j : ℚ)).sum

/-- The best-tour bookkeeping of `optimize` (aco-routing.ts lines 185-188):
replace the incumbent only on strictly smaller distance (`none` plays the
role of the initial `bestDistance = Infinity`), so ties keep the first tour
found. -/
def updateBest (best : Option (List ℕ × ℚ)) (ant : List ℕ × ℚ) : Option (List ℕ × ℚ) :=
  match best with
  | none => some ant
  | some b => if ant.2 < b.2 then some ant else best

/-- The inner ant loop of `optimize` (aco-routing.ts lines 181-189): build
`numAnts` ants sequentially against the current pheromone matrix, threading
the random cursor. -/
def buildAnts (n : ℕ) (rpow : ℚ → ℚ → ℚ) (cfg : ACOConfig) (D ph : Mat) (rng : ℕ → ℚ) :
    ℕ → ℕ → List (List ℕ × ℚ) × ℕ
  | 0, ri => ([], ri)
  | m + 1, ri =>
    let a := constructAntSolution n rpow cfg D ph rng ri
    let rest := buildAnts n rpow cfg D ph rng m a.2
    (a.1 :: rest.1, rest.2)

/-- The iteration loop of `optimize` (aco-routing.ts lines 177-193): per
round construct all ants, fold the best-tour update over them, then update
the pheromone matrix.  State: pheromones, incumbent best, random cursor. -/
def acoLoop (n : ℕ) (rpow : ℚ → ℚ → ℚ) (cfg : ACOConfig) (D : Mat) (rng : ℕ → ℚ) :
    ℕ → Mat × Option (List ℕ × ℚ) × ℕ → Mat × Option (List ℕ × ℚ) × ℕ
  | 0, st => st
  | it + 1, (ph, best, ri) =>
    let ants := buildAnts n rpow cfg D ph rng cfg.numAnts ri
    acoLoop n rpow cfg D rng it
      (updatePheromones cfg ph ants.1, ants.1.foldl updateBest best, ants.2)

/-- `AntColonyOptimizer.optimize` (aco-routing.ts lines 173-196), composed
with the constructor (lines 45-59): pheromones start uniformly at `1`, the
loop runs `numIterations` rounds, and the best tour found is returned
(`[]` when no ant was ever built, matching the initial `bestTour = []`). -/
def acoOptimize (rpow : ℚ → ℚ → ℚ) (hav : ℚ → ℚ → ℚ → ℚ → ℚ) (points : List Point)
    (cfg : ACOConfig) (rng : ℕ → ℚ) : List ℕ :=
  let D := buildDistanceMatrix hav points
  let final := acoLoop points.length rpow cfg D rng cfg.numIterations (fun _ _ => 1, none, 0)
  match final.2.1 with
  | some b => b.1
  | none => []

/-- `TabuConfig` (aco-routing.ts lines 17-20). -/
structure TabuConfig where
  maxIterations : ℕ
  tabuTenure : ℕ
deriving DecidableEq

/-- The constructor defaults of `TabuSearch` (aco-routing.ts lines 209-213)
for `n` points: `min(200, 3n)` iterations, tenure `⌊√n⌋`. -/
def defaultTabuConfig (n : ℕ) : TabuConfig :=
  { maxIterations := min 200 (3 * n), tabuTenure := Nat.sqrt n }

/-- `TabuSearch.twoOptSwap` (aco-routing.ts lines 245-248):
`[...tour.slice(0, i), ...tour.slice(i, k + 1).reverse(), ...tour.slice(k + 1)]`. -/
def twoOptSwap (tour : List ℕ) (i k : ℕ) : List ℕ :=
  tour.take i ++ ((tour.drop i).take (k + 1 - i)).reverse ++ tour.drop (k + 1)

/-- The 2-opt neighbourhood enumerated by `TabuSearch.optimize`
(aco-routing.ts lines 264-265): with `n = tour.length - 1`, all pairs
`(i, k)` with `1 ≤ i < n - 1` and `i < k < n`, in the source's loop order
(`i` outer ascending, `k` inner ascending). -/
def tabuMoves (len : ℕ) : List (ℕ × ℕ) :=
  (List.range len).flatMap fun i =>
    (List.range len).filterMap fun k =>
      if 1 ≤ i ∧ i + 1 ≤ k ∧ (i : ℤ) < (len : ℤ) - 2 ∧ (k : ℤ) < (len : ℤ) - 1 then
        some (i, k)
      else none

/-- The neighbourhood scan of one `TabuSearch.optimize` iteration
(aco-routing.ts lines 259-279): a move is eligible when its key is not tabu
or its distance beats the best known one (aspiration); among eligible moves
the first strictly-smallest candidate wins (`none` is the initial
`bestCandidateDistance = Infinity`). -/
def scanMoves (D : Mat) (current : List ℕ) (bestDistance : ℚ) (tabu : List (ℕ × ℕ)) :
    Option (List ℕ × ℚ × (ℕ × ℕ)) :=
  (tabuMoves current.length).foldl
    (fun acc ik =>
      let cand := twoOptSwap current ik.1 ik.2
      let cd := calculateTourDistance D cand
      if ik ∉ tabu ∨ cd < bestDistance then
        match acc with
        | none => some (cand, cd, ik)
        | some b => if cd < b.2.1 then some (cand, cd, ik) else acc
      else acc)
    none

/-- `tabuList.add(bestMove)` on a JavaScript `Set` (aco-routing.ts line 284):
insertion order is kept, re-adding an existing key changes nothing. -/
def addTabu (tabu : List (ℕ × ℕ)) (mv : ℕ × ℕ) : List (ℕ × ℕ) :=
  if mv ∈ tabu then tabu else tabu ++ [mv]

/-- The size management of the tabu list (aco-routing.ts lines 287-292):
once over `tabuTenure`, delete the first (oldest) entry in insertion
order — `tabuList.values().next().value`. -/
def trimTabu (tenure : ℕ) (tabu : List (ℕ × ℕ)) : List (ℕ × ℕ) :=
  if tenure < tabu.length then tabu.tail else tabu

/-- The iteration loop of `TabuSearch.optimize` (aco-routing.ts lines
258-299): stop on fuel exhaustion or when no move is eligible; otherwise
take the chosen candidate as current tour, record its move as tabu, trim the
list, and update the best tour on strict improvement. -/
def tabuLoop (D : Mat) (tenure : ℕ) :
    ℕ → List ℕ → List ℕ → ℚ → List (ℕ × ℕ) → List ℕ
  | 0, _, bestTour, _, _ => bestTour
  | fuel + 1, current, bestTour, bestDistance, tabu =>
    match scanMoves D current bestDistance tabu with
    | none => bestTour
    | some c =>
      let tabu2 := trimTabu tenure (addTabu tabu c.2.2)
      if c.2.1 < bestDistance then tabuLoop D tenure fuel c.1 c.1 c.2.1 tabu2
      else tabuLoop D tenure fuel c.1 bestTour bestDistance tabu2

/-- `TabuSearch.optimize` (aco-routing.ts lines 250-302) over a given
distance matrix: best tour starts as the initial tour with its distance,
the tabu list starts empty. -/
def tabuOptimize (D : Mat) (cfg : TabuConfig) (initialTour : List ℕ) : List ℕ :=
  tabuLoop D cfg.tabuTenure cfg.maxIterations initialTour initialTour
    (calculateTourDistance D initialTour) []

/-- The depot preparation of `optimizeRouteACOTabu` (aco-routing.ts lines
317-324): with a start point, filter out every stop sharing its id and put
the start point first; without one, the points as given. -/
def allPointsOf (points : List Point) (startPoint : Option Point) : List Point :=
  match startPoint with
  | some s => s :: points.filter fun p => p.id ≠ s.id
  | none => points

/-- `optimizeRouteACOTabu` (aco-routing.ts lines 308-344): empty and
singleton inputs are returned as-is; otherwise stops sharing the depot's id
are filtered out, the depot is put first, ACO builds a tour, tabu search
refines it, and the closing depot-return index is dropped before mapping
indices back to points. -/
def optimizeRouteACOTabu (rpow : ℚ → ℚ → ℚ) (hav : ℚ → ℚ → ℚ → ℚ → ℚ) (rng : ℕ → ℚ)
    (points : List Point) (startPoint : Option Point) : List Point :=
  if points.length = 0 then []
  else if points.length = 1 then points
  else
    let allPoints := allPointsOf points startPoint
    let acoSolution := acoOptimize rpow hav allPoints (defaultACOConfig allPoints.length) rng
    let finalSolution :=
      tabuOptimize (buildDistanceMatrix hav allPoints) (defaultTabuConfig allPoints.length)
        acoSolution
    finalSolution.dropLast.map fun idx => allPoints.getD idx dummyPoint

/-- `RouteSegment` (routing.ts lines 4-8); also the shape of a successful
`calculateRoadRoute` response. -/
structure RouteSegment where
  distance : ℚ
  duration : ℚ
  coordinates : List (ℚ × ℚ)
deriving DecidableEq

/-- `RouteResult` (routing.ts lines 10-16). -/
structure RouteResult where
  route : List Point
  totalDistance : ℚ
  totalDuration : ℚ
  segments : List RouteSegment
  geometry : List (List (ℚ × ℚ))
deriving DecidableEq

/-- `MultiRouteResult` (routing.ts lines 87-95); the three optional fields
are only populated by the capacity path. -/
structure MultiRouteResult where
  routes : List RouteResult
  totalDistance : ℚ
  totalDuration : ℚ
  meanDuration : ℚ
  vehicleLoads : Option (List ℚ)
  vehicleNames : Option (List String)
  vehicleCapacities : Option (List ℚ)
deriving DecidableEq

/-- The catch-branch of the segment loop (routing.ts lines 58-75): straight
line with haversine distance; `duration = (distance / 60) * 60`. -/
def fallbackSegment (hav : ℚ → ℚ → ℚ → ℚ → ℚ) (p q : Point) : RouteSegment :=
  let distance := hav p.y p.x q.y q.x
  { distance := distance
    duration := distance / 60 * 60
    coordinates := [(p.y, p.x), (q.y, q.x)] }

/-- The per-edge loop of `calculateOptimalRoute` (routing.ts lines 36-76):
for every consecutive pair ask the road collaborator, fall back to the
straight line on failure, and accumulate
`(totalDistance, totalDuration, segments, geometry)` left to right. -/
def buildSegments (hav : ℚ → ℚ → ℚ → ℚ → ℚ) (road : Point → Point → Option RouteSegment)
    (routePoints : List Point) : ℚ × ℚ × List RouteSegment × List (List (ℚ × ℚ)) :=
  (routePoints.zip routePoints.tail).foldl
    (fun acc e =>
      let seg :=
        match road e.1 e.2 with
        | some s => s
        | none => fallbackSegment hav e.1 e.2
      (acc.1 + seg.distance, acc.2.1 + seg.duration, acc.2.2.1 ++ [seg],
        acc.2.2.2 ++ [seg.coordinates]))
    (0, 0, [], [])

/-- `optimizeRouteOrder` (routing.ts lines 434-443): empty and singleton
lists pass through, larger ones go to the ACO + tabu pipeline. -/
def optimizeRouteOrder (rpow : ℚ → ℚ → ℚ) (hav : ℚ → ℚ → ℚ → ℚ → ℚ) (rng : ℕ → ℚ)
    (points : List Point) (startPoint : Option Point) : List Point :=
  if points.length = 0 then []
  else if points.length = 1 then points
  else optimizeRouteACOTabu rpow hav rng points startPoint

/-- `calculateOptimalRoute` (routing.ts lines 18-85): guard
`points.length < 2 && !startEndPoint`, then fix the visiting order (with the
depot filtered out by id, put first and re-appended last when given), then
accumulate road segments.  The thrown `Error` is an `Except.error`. -/
def calculateOptimalRoute (rpow : ℚ → ℚ → ℚ) (hav : ℚ → ℚ → ℚ → ℚ → ℚ)
    (road : Point → Point → Option RouteSegment) (rng : ℕ → ℚ)
    (points : List Point) (startEndPoint : Option Point) : Except String RouteResult :=
  if points.length < 2 ∧ startEndPoint = none then .error "Minimaal 2 punten nodig"
  else
    let routePoints :=
      match startEndPoint with
      | some s =>
        s :: optimizeRouteOrder rpow hav rng (points.filter fun p => p.id ≠ s.id) (some s)
          ++ [s]
      | none => optimizeRouteOrder rpow hav rng points none
    let agg := buildSegments hav road routePoints
    .ok
      { route := routePoints
        totalDistance := agg.1
        totalDuration := agg.2.1
        segments := agg.2.2.1
        geometry := agg.2.2.2 }

/-- The zero entry pushed for an empty vehicle (routing.ts lines 192 and
353-359). -/
def emptyRouteResult : RouteResult :=
  { route := [], totalDistance := 0, totalDuration := 0, segments := [], geometry := [] }

/-- The per-vehicle route loop shared by `calculateOptimalRoutes` (lines
188-201) and `calculateOptimalRoutesWithCapacity` (lines 348-367): empty
clusters contribute a zero entry, the rest run the single-route pipeline,
with distances and durations accumulated; a thrown error aborts the whole
call, as an exception does under `await`. -/
def routesLoop (rpow : ℚ → ℚ → ℚ) (hav : ℚ → ℚ → ℚ → ℚ → ℚ)
    (road : Point → Point → Option RouteSegment) (rng : ℕ → ℚ)
    (startEndPoint : Option Point) :
    List (List Point) → List RouteResult × ℚ × ℚ → Except String (List RouteResult × ℚ × ℚ)
  | [], acc => .ok acc
  | c :: rest, acc =>
    if c.isEmpty then
      routesLoop rpow hav road rng startEndPoint rest
        (acc.1 ++ [emptyRouteResult], acc.2.1, acc.2.2)
    else do
      let rr ← calculateOptimalRoute rpow hav road rng c startEndPoint
      routesLoop rpow hav road rng startEndPoint rest
        (acc.1 ++ [rr], acc.2.1 + rr.totalDistance, acc.2.2 + rr.totalDuration)

/-- `points.find(pp => pp.id === pts[i].id)!` (routing.ts lines 177 and
338): first point carrying the id. -/
def findById (points : List Point) (pid : String) : Point :=
  (points.find? fun pp => pp.id == pid).getD dummyPoint

/-- The nearest-centroid selection of the plain k-means
(routing.ts lines 136-148): squared Euclidean distance in coordinate space,
strict improvement, first index wins ties, starting from `best = 0`. -/
def nearestCentroid (centroids : List (ℚ × ℚ)) (x y : ℚ) : ℕ :=
  (((List.range centroids.length).foldl
      (fun acc c =>
        let ctr := centroids.getD c (0, 0)
        let d := (x - ctr.1) * (x - ctr.1) + (y - ctr.2) * (y - ctr.2)
        match acc with
        | none => some (c, d)
        | some b => if d < b.2 then some (c, d) else acc)
      none)).elim 0 (·.1)

/-- The centroid update of the plain k-means (routing.ts lines 151-168):
per centroid the coordinate sums and count of its assigned points; centroids
with no points stay put; `moved` uses exact inequality. -/
def kmeansUpdate (pts : List (ℚ × ℚ)) (assignments : List ℕ)
    (centroids : List (ℚ × ℚ)) : List (ℚ × ℚ) × Bool :=
  let step := (List.range centroids.length).map fun c =>
    let mine := ((pts.zip assignments).filter fun pa => pa.2 == c).map (·.1)
    let cur := centroids.getD c (0, 0)
    if mine.length = 0 then (cur, false)
    else
      let nx := (mine.map (·.1)).sum / (mine.length : ℚ)
      let ny := (mine.map (·.2)).sum / (mine.length : ℚ)
      ((nx, ny), nx ≠ cur.1 ∨ ny ≠ cur.2)
  (step.map (·.1), step.any (·.2))

/-- The `for (let iter = 0; iter < 10; iter++)` loop of
`calculateOptimalRoutes` (routing.ts lines 134-171): assign every point to
its nearest centroid, update the centroids, stop early when none moved.
Returns the final assignment. -/
def kmeansLoop (pts : List (ℚ × ℚ)) : ℕ → List (ℚ × ℚ) → List ℕ → List ℕ
  | 0, _, assignments => assignments
  | fuel + 1, centroids, _ =>
    let assignments := pts.map fun p => nearestCentroid centroids p.1 p.2
    let upd := kmeansUpdate pts assignments centroids
    if upd.2 then kmeansLoop pts fuel upd.1 assignments else assignments

/-- The cluster build of `calculateOptimalRoutes` (routing.ts lines
173-182): one list per centroid holding, in input order, the points assigned
to it (looked up afresh by id), padded with empty clusters up to `k`. -/
def buildClusters (points : List Point) (k : ℕ) (assignments : List ℕ)
    (numCentroids : ℕ) : List (List Point) :=
  ((List.range numCentroids).map fun c =>
    (List.range points.length).filterMap fun i =>
      if assignments.getD i 0 = c then some (findById points (points.getD i dummyPoint).id)
      else none)
    ++ List.replicate (k - numCentroids) []

/-- `calculateOptimalRoutes` (routing.ts lines 97-211): clamp the vehicle
count (`vehicleCount || 1`, floored, at least 1), return a zero result on no
points, delegate to the single-route pipeline for one vehicle, and otherwise
cluster by plain k-means and run the per-vehicle loop;
`meanDuration = totalDuration / Math.max(1, k)`. -/
def calculateOptimalRoutes (rpow : ℚ → ℚ → ℚ) (hav : ℚ → ℚ → ℚ → ℚ → ℚ)
    (road : Point → Point → Option RouteSegment) (rng : ℕ → ℚ)
    (points : List Point) (vehicleCount : ℚ) (startEndPoint : Option Point) :
    Except String MultiRouteResult :=
  let k := max 1 (Int.toNat ⌊if vehicleCount = 0 then 1 else vehicleCount⌋)
  if points.length = 0 then
    .ok
      { routes := [], totalDistance := 0, totalDuration := 0, meanDuration := 0
        vehicleLoads := none, vehicleNames := none, vehicleCapacities := none }
  else if k = 1 then
    (calculateOptimalRoute rpow hav road rng points startEndPoint).map fun single =>
      { routes := [single]
        totalDistance := single.totalDistance
        totalDuration := single.totalDuration
        meanDuration := single.totalDuration
        vehicleLoads := none, vehicleNames := none, vehicleCapacities := none }
  else
    let ptsXY := points.map fun p => (p.x, p.y)
    let numCentroids := min k points.length
    let centroids0 := (List.range numCentroids).map fun i => ptsXY.getD i (0, 0)
    let assignments := kmeansLoop ptsXY 10 centroids0 (List.replicate points.length 0)
    let clusters := buildClusters points k assignments numCentroids
    (routesLoop rpow hav road rng startEndPoint clusters ([], 0, 0)).map fun agg =>
      { routes := agg.1
        totalDistance := agg.2.1
        totalDuration := agg.2.2
        meanDuration := agg.2.2 / (max 1 k : ℕ)
        vehicleLoads := none, vehicleNames := none, vehicleCapacities := none }

/-- The working record of the capacity clusterer (routing.ts line 239):
coordinates, id, and `loadMeters || 0`. -/
structure CPt where
  x : ℚ
  y : ℚ
  id : String
  loadMeters : ℚ
deriving DecidableEq

/-- Out-of-range stand-in for `CPt` reads. -/
def dummyCPt : CPt := { x := 0, y := 0, id := "", loadMeters := 0 }

/-- Entry conversion of routing.ts line 239. -/
def toCPt (p : Point) : CPt :=
  { x := p.x, y := p.y, id := p.id, loadMeters := p.loadMeters.getD 0 }

/-- The descending `loadMeters` sort of routing.ts lines 232-234.  The
comparator `(b.loadMeters || 0) - (a.loadMeters || 0)` is a consistent total
preorder, and modern `Array.prototype.sort` is stable, so the stable
`mergeSort` reproduces the order exactly. -/
def sortByLoadDesc (points : List Point) : List Point :=
  points.mergeSort fun a b => b.loadMeters.getD 0 ≤ a.loadMeters.getD 0

/-- The capacity-checked nearest-centroid search of routing.ts lines
262-278: only vehicles whose remaining capacity fits the stop's demand
compete; among those, the strictly nearest centroid (first index wins ties);
`none` when no vehicle fits.  Squared distances replace
`Math.sqrt(dx*dx + dy*dy)` (see the header note). -/
def nearestFeasible (caps loads : List ℚ) (centroids : List (ℚ × ℚ)) (p : CPt) :
    Option ℕ :=
  ((List.range centroids.length).foldl
      (fun acc c =>
        if loads.getD c 0 + p.loadMeters ≤ caps.getD c 0 then
          let ctr := centroids.getD c (0, 0)
          let d := (p.x - ctr.1) * (p.x - ctr.1) + (p.y - ctr.2) * (p.y - ctr.2)
          match acc with
          | none => some (c, d)
          | some b => if d < b.2 then some (c, d) else acc
        else acc)
      none).map (·.1)

/-- The first assignment pass of one clustering iteration (routing.ts lines
254-286): loads reset to zero, each point either assigned to the nearest
feasible vehicle (bumping its load) or recorded as unassigned by index. -/
def capacityPassOne (caps : List ℚ) (centroids : List (ℚ × ℚ)) (pts : List CPt) :
    List (Option ℕ) × List ℚ × List ℕ :=
  pts.foldl
    (fun acc p =>
      match nearestFeasible caps acc.2.1 centroids p with
      | some c =>
        (acc.1 ++ [some c], acc.2.1.set c (acc.2.1.getD c 0 + p.loadMeters), acc.2.2)
      | none => (acc.1 ++ [none], acc.2.1, acc.2.2 ++ [acc.1.length]))
    ([], caps.map fun _ => 0, [])

/-- The overflow fallback target (routing.ts lines 289-299): the vehicle
with the greatest remaining capacity, scanning from index 1 with strict
improvement, starting at vehicle 0. -/
def maxRemainingVehicle (caps loads : List ℚ) : ℕ :=
  ((List.range' 1 (caps.length - 1)).foldl
      (fun acc c =>
        let remaining := caps.getD c 0 - loads.getD c 0
        if acc.2 < remaining then (c, remaining) else acc)
      (0, caps.getD 0 0 - loads.getD 0 0)).1

/-- The force-assignment pass (routing.ts lines 288-303): every deferred
stop goes to the vehicle with the most remaining capacity at that moment,
its demand added to the load even when that overflows the capacity. -/
def capacityPassTwo (caps : List ℚ) (pts : List CPt) :
    List ℕ → List (Option ℕ) × List ℚ → List (Option ℕ) × List ℚ
  | [], st => st
  | i :: rest, (temp, loads) =>
    let c := maxRemainingVehicle caps loads
    capacityPassTwo caps pts rest
      (temp.set i (some c), loads.set c (loads.getD c 0 + (pts.getD i dummyCPt).loadMeters))

/-- The centroid update of the capacity clusterer (routing.ts lines
307-328): mean of the assigned points per vehicle, empty vehicles stay put,
`moved` when a coordinate changes by more than `0.0001`.  Centroids are
rewritten to the mean even when the change is within the epsilon. -/
def capacityClusterUpdate (pts : List CPt) (temp : List (Option ℕ))
    (centroids : List (ℚ × ℚ)) : List (ℚ × ℚ) × Bool :=
  let step := (List.range centroids.length).map fun c =>
    let mine := ((pts.zip temp).filter fun pa => pa.2 == some c).map (·.1)
    let cur := centroids.getD c (0, 0)
    if mine.length = 0 then (cur, false)
    else
      let nx := (mine.map (·.x)).sum / (mine.length : ℚ)
      let ny := (mine.map (·.y)).sum / (mine.length : ℚ)
      ((nx, ny), 1 / 10000 < |nx - cur.1| ∨ 1 / 10000 < |ny - cur.2|)
  (step.map (·.1), step.any (·.2))

/-- The `for (let iter = 0; iter < 20; iter++)` loop of
`calculateOptimalRoutesWithCapacity` (routing.ts lines 253-331): both
passes, the centroid update, early exit when no centroid moved beyond the
epsilon.  Returns the final assignment and per-vehicle loads. -/
def capacityClusterLoop (caps : List ℚ) (pts : List CPt) :
    ℕ → List (ℚ × ℚ) → List (Option ℕ) × List ℚ → List (Option ℕ) × List ℚ
  | 0, _, st => st
  | fuel + 1, centroids, _ =>
    let p1 := capacityPassOne caps centroids pts
    let st := capacityPassTwo caps pts p1.2.2 (p1.1, p1.2.1)
    let upd := capacityClusterUpdate pts st.1 centroids
    if upd.2 then capacityClusterLoop caps pts fuel upd.1 st else st

/-- The whole clustering stage of `calculateOptimalRoutesWithCapacity`
(routing.ts lines 231-331): sort by descending load, spread the initial
centroids with stride `⌊pts.length / k⌋` clamped to the last point, run up
to 20 rounds. -/
def runCapacityCluster (points : List Point) (caps : List ℚ) :
    List (Option ℕ) × List ℚ :=
  let pts := (sortByLoadDesc points).map toCPt
  let step := pts.length / caps.length
  let centroids0 := (List.range caps.length).map fun i =>
    let p := pts.getD (min (i * step) (pts.length - 1)) dummyCPt
    (p.x, p.y)
  capacityClusterLoop caps pts 20 centroids0
    (List.replicate pts.length (some 0), caps.map fun _ => 0)

/-- The vehicle-assignment build of routing.ts lines 333-341: per vehicle,
in sorted-point order, the points assigned to it, each looked up afresh in
the original list by id. -/
def vehicleAssignmentsOf (points : List Point) (caps : List ℚ) : List (List Point) :=
  let pts := (sortByLoadDesc points).map toCPt
  let assign := (runCapacityCluster points caps).1
  (List.range caps.length).map fun c =>
    (List.range pts.length).filterMap fun i =>
      if assign.getD i none = some c then some (findById points (pts.getD i dummyCPt).id)
      else none

/-- `calculateOptimalRoutesWithCapacity` (routing.ts lines 213-380): zero
result when there are no points or no capacities, otherwise cluster under
capacity, run the per-vehicle route loop, and divide the total duration by
the number of vehicles that received at least one stop (at least 1). -/
def calculateOptimalRoutesWithCapacity (rpow : ℚ → ℚ → ℚ) (hav : ℚ → ℚ → ℚ → ℚ → ℚ)
    (road : Point → Point → Option RouteSegment) (rng : ℕ → ℚ)
    (points : List Point) (vehicleCapacities : List ℚ)
    (vehicleNames : Option (List String)) (startEndPoint : Option Point) :
    Except String MultiRouteResult :=
  if points.length = 0 ∨ vehicleCapacities.length = 0 then
    .ok
      { routes := [], totalDistance := 0, totalDuration := 0, meanDuration := 0
        vehicleLoads := some []
        vehicleNames := some (vehicleNames.getD [])
        vehicleCapacities := some vehicleCapacities }
  else
    let assigns := vehicleAssignmentsOf points vehicleCapacities
    let loads := (runCapacityCluster points vehicleCapacities).2
    (routesLoop rpow hav road rng startEndPoint assigns ([], 0, 0)).map fun agg =>
      { routes := agg.1
        totalDistance := agg.2.1
        totalDuration := agg.2.2
        meanDuration := agg.2.2
          / (max 1 ((List.range vehicleCapacities.length).filter
              (fun i => !(assigns.getD i []).isEmpty)).length : ℕ)
        vehicleLoads := some loads
        vehicleNames := some (vehicleNames.getD [])
        vehicleCapacities := some vehicleCapacities }

/-- The depot-closed-permutation invariant of a `Tour` (spec §3): first and
last element are the depot index 0 and the interior is a permutation of
`1..n-1`. -/
def isDepotClosedTour (n : ℕ) (t : List ℕ) : Prop :=
  t.head? = some 0 ∧ t.getLast? = some 0 ∧ ((t.drop 1).dropLast).Perm ((List.range n).drop 1)

instance (n : ℕ) (t : List ℕ) : Decidable (isDepotClosedTour n t) := by
  unfold isDepotClosedTour
  infer_instance

/-! ## Concrete inputs used by witnesses and counterexamples -/

/-- A concrete stand-in for `Math.pow`: the permutation and ordering claims
below hold for every weight function, so any instance will do. -/
def exRpow : ℚ → ℚ → ℚ := fun _ _ => 1

/-- A concrete stand-in for the haversine: the zero metric. -/
def exHav0 : ℚ → ℚ → ℚ → ℚ → ℚ := fun _ _ _ _ => 0

/-- The constant-zero random stream: roulette selection then always takes
the first unvisited city. -/
def exRng0 : ℕ → ℚ := fun _ => 0

/-- The constant-0.9 random stream. -/
def exRng9 : ℕ → ℚ := fun _ => 9 / 10

/-- A depot. -/
def Spt : Point := { id := "s", name := "S", x := 0, y := 0, loadMeters := none }

/-- A stop with demand 1. -/
def P1 : Point := { id := "p1", name := "P1", x := 1, y := 0, loadMeters := some 1 }

/-- A stop with demand 2. -/
def P2 : Point := { id := "p2", name := "P2", x := 2, y := 0, loadMeters := some 2 }

/-- A road collaborator that always answers distance 0 and duration 1. -/
def roadOne : Point → Point → Option RouteSegment := fun _ _ => some ⟨1, 1, []⟩

/-- A road collaborator whose only non-zero distance is the directed edge
from the depot to `P1` (a one-way street); durations are 1. -/
def roadAsym : Point → Point → Option RouteSegment := fun a b =>
  some ⟨if a = Spt ∧ b = P1 then 10 else 0, 1, []⟩

/-- Positions on a line for the 3-interior-stop tabu counterexample:
0, 10, 1, 11. -/
def xcoord : ℕ → ℚ := fun i => if i = 1 then 10 else if i = 2 then 1 else if i = 3 then 11 else 0

/-- The symmetric line-metric distance matrix over `xcoord`. -/
def exD7 : Mat := fun i j => |xcoord i - xcoord j|

/-- A stop with id `"a"`. -/
def A1 : Point := { id := "a", name := "A1", x := 0, y := 0, loadMeters := some 1 }

/-- A different stop that reuses id `"a"`. -/
def A2 : Point := { id := "a", name := "A2", x := 5, y := 0, loadMeters := some 2 }

/-- A stop that reuses the depot's id `"s"` but differs from the depot. -/
def Qdup : Point := { id := "s", name := "Qdup", x := 7, y := 7, loadMeters := none }

/-- The single-route result on `[P1, P2]` from the depot under the concrete
collaborators above (used to instantiate the fleet-delegation theorem). -/
def exSingle : RouteResult :=
  (calculateOptimalRoute exRpow exHav0 roadOne exRng0 [P1, P2] (some Spt)).toOption.getD
    emptyRouteResult

/-! ## Counterexamples -/

/-- With two stops sharing one id, the capacity clusterer's id-based lookup
(`points.find(pp => pp.id === pts[i].id)!`) returns the first carrier twice:
`A2` is never assigned to any vehicle. -/
theorem C3_counterexample_duplicate_id :
    A2 ∈ ([A1, A2] : List Point) ∧
      ∀ c ∈ vehicleAssignmentsOf [A1, A2] [10], A2 ∉ c := by
  with_unfolding_all decide

/-- A single stop with no depot is non-empty input, and
`calculateOptimalRoute` rejects it with the `'Minimaal 2 punten nodig'`
error. -/
theorem C4_counterexample_single_stop_rejected :
    ([P1] : List Point) ≠ [] ∧
      calculateOptimalRoute exRpow exHav0 roadOne exRng0 [P1] none
        = Except.error "Minimaal 2 punten nodig" := by
  exact ⟨by decide, by with_unfolding_all rfl⟩

/-- One stop, two vehicles: one vehicle stays empty, yet the count-only path
reports `meanDuration = totalDuration / 2 = 1` instead of
`totalDuration / 1 = 2`. -/
theorem C5_counterexample_empty_vehicle_in_mean :
    (calculateOptimalRoutes exRpow exHav0 roadOne exRng0 [P1] 2 (some Spt)).map
        (fun r => (r.meanDuration, r.totalDuration, r.routes.map fun rt => rt.route.length))
        = Except.ok (1, 2, [3, 0]) ∧ (1 : ℚ) ≠ 2 / 1 := by
  exact ⟨by with_unfolding_all rfl, by norm_num⟩

/-- With a depot and one stop, the route `calculateOptimalRoute` hands to
the caller is `[depot, stop, depot]`: the depot appears twice and is the
last element. -/
theorem C6_counterexample_route_closes_at_depot :
    (calculateOptimalRoute exRpow exHav0 roadOne exRng0 [P1] (some Spt)).map (fun r => r.route)
        = Except.ok [Spt, P1, Spt] ∧
      [Spt, P1, Spt].getLast? = some Spt ∧ 1 < [Spt, P1, Spt].count Spt := by
  exact ⟨by with_unfolding_all rfl, by decide, by decide⟩

/-- A depot-closed tour with 3 interior stops (fewer than 4) on the line
0, 10, 1, 11: the 2-opt move `(1, 2)` strictly improves it, and tabu search
(with the source's default configuration for 4 points) returns a different
tour. -/
theorem C7_counterexample_three_interior_improving :
    tabuOptimize exD7 (defaultTabuConfig 4) [0, 1, 2, 3, 0] ≠ [0, 1, 2, 3, 0] ∧
      ([0, 1, 2, 3, 0] : List ℕ).length - 2 < 4 ∧
      calculateTourDistance exD7 (twoOptSwap [0, 1, 2, 3, 0] 1 2)
        < calculateTourDistance exD7 [0, 1, 2, 3, 0] := by
  refine ⟨by with_unfolding_all decide, by decide, by with_unfolding_all decide⟩

/-- The capacity path with a single amply-sized vehicle re-sorts the stops
by descending load before optimising, so on `[P1, P2]` it visits `P2` first
while the single-route pipeline visits `P1` first, and with the one-way
road collaborator the totals differ by 10. -/
theorem C8_counterexample_capacity_path_differs :
    (calculateOptimalRoutesWithCapacity exRpow exHav0 roadAsym exRng0 [P1, P2] [100] none
          (some Spt)).map (fun r => (r.routes.map fun rt => rt.route, r.totalDistance))
        = Except.ok ([[Spt, Spt, P2, P1, Spt]], 0) ∧
      (calculateOptimalRoute exRpow exHav0 roadAsym exRng0 [P1, P2] (some Spt)).map
          (fun r => (r.route, r.totalDistance))
        = Except.ok ([Spt, Spt, P1, P2, Spt], 10) ∧
      ([[Spt, Spt, P2, P1, Spt]] ≠ [[Spt, Spt, P1, P2, Spt]] ∧ (0 : ℚ) ≠ 10) := by
  refine ⟨by with_unfolding_all rfl, by with_unfolding_all rfl, by decide, by norm_num⟩

/-- C9: `selectNextCity` draws from the ambient global `Math.random()`
(aco-routing.ts line 128), not from an injectable seedable source.
Modelling that ambient stream explicitly, the optimizer's answer on one and
the same input changes with the stream: no seed is available in the source
to pin it down, so reruns are not reproducible. -/
theorem C9_ambient_stream_changes_tour :
    acoOptimize exRpow exHav0 [Spt, P1, P2] (defaultACOConfig 3) exRng0 = [0, 1, 2, 0] ∧
      acoOptimize exRpow exHav0 [Spt, P1, P2] (defaultACOConfig 3) exRng9 = [0, 2, 1, 0] ∧
      ([0, 1, 2, 0] : List ℕ) ≠ [0, 2, 1, 0] := by
  exact ⟨by with_unfolding_all rfl, by with_unfolding_all rfl, by decide⟩

/-- `optimizeRouteACOTabu` returns a singleton stop list unchanged before
the depot-id filter runs: the stop `Qdup`, which shares the depot's id but
is not the depot, survives into the returned order. -/
theorem C10_counterexample_singleton_skips_filter :
    optimizeRouteACOTabu exRpow exHav0 exRng0 [Qdup] (some Spt) = [Qdup] ∧
      Qdup.id = Spt.id ∧ Qdup ≠ Spt ∧ Qdup ∈ [Qdup] := by
  exact ⟨by with_unfolding_all rfl, rfl, by decide, by decide⟩

/-- A successful roulette selection lands on a list position holding a
non-zero probability. -/
theorem rouletteLoop_some :
    ∀ (l : List ℚ) (r : ℚ) (i0 j : ℕ), rouletteLoop l r i0 = some j →
      ∃ k, ∃ hk : k < l.length, j = i0 + k ∧ l.get ⟨k, hk⟩ ≠ 0 := by
  intro l
  induction l with
  | nil => intro r i0 j h; simp [rouletteLoop] at h
  | cons p rest ih =>
    intro r i0 j h
    unfold rouletteLoop at h
    by_cases hp : p = 0
    · simp only [hp, if_pos rfl] at h
      obtain ⟨k, hk, hj, hne⟩ := ih r (i0 + 1) j (by simpa using h)
      exact ⟨k + 1, by simpa using Nat.succ_lt_succ hk, by omega, by simpa using hne⟩
    · rw [if_neg hp] at h
      by_cases hr : r - p ≤ 0
      · rw [if_pos hr] at h
        obtain rfl : i0 = j := by simpa using h
        exact ⟨0, by simp, by omega, by simpa using hp⟩
      · rw [if_neg hr] at h
        obtain ⟨k, hk, hj, hne⟩ := ih (r - p) (i0 + 1) j h
        exact ⟨k + 1, by simpa using Nat.succ_lt_succ hk, by omega, by simpa using hne⟩

/-- A bounded duplicate-free visited list shorter than `n` misses some city. -/
theorem exists_unvisited {n : ℕ} {visited : List ℕ}
    (hlen : visited.length < n) : ∃ j, j < n ∧ j ∉ visited := by
  by_contra hall
  push_neg at hall
  have hsub : (List.range n) ⊆ visited := by
    intro x hx
    exact hall x (List.mem_range.mp hx)
  have := ((List.nodup_range n).subperm hsub).length_le
  simp at this
  omega

/-- `selectNextCity` always returns a fresh city below `n` as long as one
exists, whatever the weights and the random draw. -/
theorem selectNextCity_fresh (n : ℕ) (rpow : ℚ → ℚ → ℚ) (cfg : ACOConfig) (D ph : Mat)
    (current : ℕ) (visited : List ℕ) (r : ℚ)
    (hex : ∃ j, j < n ∧ j ∉ visited) :
    selectNextCity n rpow cfg D ph current visited r < n ∧
      selectNextCity n rpow cfg D ph current visited r ∉ visited := by
  unfold selectNextCity
  set probs := (List.range n).map fun i =>
    if i ∈ visited then 0
    else rpow (ph current i) cfg.alpha * rpow (1 / (D current i + 1 / 100)) cfg.beta with hprobs
  have hlen : probs.length = n := by simp [hprobs]
  rcases hrl : rouletteLoop probs (r * probs.sum) 0 with _ | i
  · rcases hfu : firstUnvisited n visited with _ | i
    · exfalso
      obtain ⟨j, hj1, hj2⟩ := hex
      have := List.find?_eq_none.mp hfu j (List.mem_range.mpr hj1)
      simp at this
      exact hj2 this
    · simp only [hrl, hfu]
      constructor
      · exact List.mem_range.mp (List.mem_of_find?_eq_some hfu)
      · have := List.find?_some hfu
        simpa using this
  · simp only [hrl]
    obtain ⟨k, hk, hj, hne⟩ := rouletteLoop_some probs (r * probs.sum) 0 i hrl
    have hkn : k < n := hlen ▸ hk
    have hval : probs.get ⟨k, hk⟩
        = if k ∈ visited then 0
          else rpow (ph current k) cfg.alpha * rpow (1 / (D current k + 1 / 100)) cfg.beta := by
      simp [hprobs]
    have hik : i = k := by omega
    subst hik
    refine ⟨hkn, ?_⟩
    intro hmem
    rw [hval, if_pos hmem] at hne
    exact hne rfl

/-- Interior membership of a depot-less index range. -/
theorem mem_range_drop_one {n x : ℕ} : x ∈ (List.range n).drop 1 ↔ 1 ≤ x ∧ x < n := by
  cases n with
  | zero => simp
  | succ m =>
    rw [List.range_succ_eq_map]
    simp only [List.drop_succ_cons, List.drop_zero, List.mem_map, List.mem_range]
    constructor
    · rintro ⟨y, hy, rfl⟩; omega
    · rintro ⟨h1, h2⟩; exact ⟨x - 1, by omega, by omega⟩

/-- The ant-construction loop only ever appends fresh in-range cities. -/
theorem antSteps_spec (n : ℕ) (rpow : ℚ → ℚ → ℚ) (cfg : ACOConfig) (D ph : Mat)
    (rng : ℕ → ℚ) :
    ∀ (fuel current : ℕ) (visited : List ℕ) (ri : ℕ), visited.Nodup →
      (visited.length + fuel = n) →
      (antSteps n rpow cfg D ph rng fuel current visited ri).1.length = fuel ∧
        (∀ x ∈ (antSteps n rpow cfg D ph rng fuel current visited ri).1, x < n) ∧
        ((antSteps n rpow cfg D ph rng fuel current visited ri).1 ++ visited).Nodup := by
  intro fuel
  induction fuel with
  | zero =>
    intro current visited ri hnd hlen
    simpa [antSteps] using hnd
  | succ m ih =>
    intro current visited ri hnd hlen
    have hex : ∃ j, j < n ∧ j ∉ visited := exists_unvisited (by omega)
    obtain ⟨hlt, hfresh⟩ := selectNextCity_fresh n rpow cfg D ph current visited (rng ri) hex
    set next := selectNextCity n rpow cfg D ph current visited (rng ri) with hnext
    have hnd2 : (next :: visited).Nodup := List.nodup_cons.mpr ⟨hfresh, hnd⟩
    have hlen2 : (next :: visited).length + m = n := by simp; omega
    obtain ⟨ih1, ih2, ih3⟩ := ih next (next :: visited) (ri + 1) hnd2 hlen2
    refine ⟨?_, ?_, ?_⟩
    · simp [antSteps, ih1]
    · intro x hx
      simp only [antSteps, List.mem_cons] at hx
      rcases hx with rfl | hx
      · exact hlt
      · exact ih2 x hx
    · show ((next :: _) ++ visited).Nodup
      have hperm :
          ((antSteps n rpow cfg D ph rng m next (next :: visited) (ri + 1)).1
              ++ (next :: visited)).Perm
            (next :: ((antSteps n rpow cfg D ph rng m next (next :: visited) (ri + 1)).1
              ++ visited)) := List.perm_middle
    
      have := hperm.nodup ih3
      simpa [antSteps] using this

/-- Every constructed ant tour is a depot-closed permutation of `0..n-1` of
length `n + 1` (for `n ≥ 1`), whatever the pheromones and random draws. -/
theorem constructAntSolution_spec (n : ℕ) (rpow : ℚ → ℚ → ℚ) (cfg : ACOConfig)
    (D ph : Mat) (rng : ℕ → ℚ) (ri : ℕ) (hn : 1 ≤ n) :
    isDepotClosedTour n (constructAntSolution n rpow cfg D ph rng ri).1.1 ∧
      (constructAntSolution n rpow cfg D ph rng ri).1.1.length = n + 1 := by
  obtain ⟨h1, h2, h3⟩ := antSteps_spec n rpow cfg D ph rng (n - 1) 0 [0] ri
    (by simp) (by simp; omega)
  set out := (antSteps n rpow cfg D ph rng (n - 1) 0 [0] ri).1 with hout
  have hnodup : out.Nodup := h3.of_append_left
  have hdisj : List.Disjoint out [0] := List.disjoint_of_nodup_append h3
  have hzero : 0 ∉ out := fun hmem => hdisj hmem (by simp)
  have hsub : out ⊆ (List.range n).drop 1 := by
    intro x hx
    refine mem_range_drop_one.mpr ⟨?_, h2 x hx⟩
    rcases Nat.eq_zero_or_pos x with rfl | hpos
    · exact absurd hx hzero
    · exact hpos
  have htlen : ((List.range n).drop 1).length = n - 1 := by simp
  have hperm : out.Perm ((List.range n).drop 1) :=
    (hnodup.subperm hsub).perm_of_length_le (by omega)
  constructor
  · refine ⟨rfl, ?_, ?_⟩
    · show ((0 :: out) ++ [0]).getLast? = some 0
      exact List.getLast?_concat _
    · show ((0 :: out ++ [0]).drop 1).dropLast.Perm ((List.range n).drop 1)
      simpa [List.dropLast_concat] using hperm
  · show (0 :: out ++ [0]).length = n + 1
    simp [h1]
    omega

/-- Every ant of one inner loop satisfies the tour invariant. -/
theorem buildAnts_spec (n : ℕ) (rpow : ℚ → ℚ → ℚ) (cfg : ACOConfig) (D : Mat)
    (rng : ℕ → ℚ) (hn : 1 ≤ n) :
    ∀ (m : ℕ) (ph : Mat) (ri : ℕ), ∀ ant ∈ (buildAnts n rpow cfg D ph rng m ri).1,
      isDepotClosedTour n ant.1 ∧ ant.1.length = n + 1 := by
  intro m
  induction m with
  | zero => intro ph ri ant hant; simp [buildAnts] at hant
  | succ k ih =>
    intro ph ri ant hant
    simp only [buildAnts, List.mem_cons] at hant
    rcases hant with rfl | hant
    · exact constructAntSolution_spec n rpow cfg D ph rng ri hn
    · exact ih ph _ ant hant

/-- The inner loop of `optimize` builds exactly `m` ants. -/
theorem buildAnts_length (n : ℕ) (rpow : ℚ → ℚ → ℚ) (cfg : ACOConfig) (D : Mat)
    (rng : ℕ → ℚ) :
    ∀ (m : ℕ) (ph : Mat) (ri : ℕ), (buildAnts n rpow cfg D ph rng m ri).1.length = m := by
  intro m
  induction m with
  | zero => intro ph ri; simp [buildAnts]
  | succ k ih => intro ph ri; simp [buildAnts, ih]

/-- Folding the best-tour update preserves any property that the incumbent
and all ants enjoy. -/
theorem foldl_updateBest_spec (P : List ℕ × ℚ → Prop) :
    ∀ (ants : List (List ℕ × ℚ)) (best : Option (List ℕ × ℚ)),
      (∀ a ∈ ants, P a) → (∀ b, best = some b → P b) →
      ∀ b2, ants.foldl updateBest best = some b2 → P b2 := by
  intro ants
  induction ants with
  | nil => intro best _ hbest b2 h2; exact hbest b2 h2
  | cons a rest ih =>
    intro best hants hbest b2 h2
    simp only [List.foldl_cons] at h2
    refine ih (updateBest best a) (fun x hx => hants x (by simp [hx])) ?_ b2 h2
    intro b hb
    rcases best with _ | b0
    · have hb2 : some a = some b := hb
      exact (Option.some.inj hb2) ▸ hants a (by simp)
    · have hb2 : (if a.2 < b0.2 then some a else some b0) = some b := hb
      by_cases hlt : a.2 < b0.2
      · rw [if_pos hlt] at hb2
        exact (Option.some.inj hb2) ▸ hants a (by simp)
      · rw [if_neg hlt] at hb2
        exact hbest b hb2

/-- Folding the best-tour update over a non-empty ant list yields an
incumbent. -/
theorem foldl_updateBest_isSome :
    ∀ (ants : List (List ℕ × ℚ)) (best : Option (List ℕ × ℚ)),
      best.isSome = true ∨ ants ≠ [] → (ants.foldl updateBest best).isSome = true := by
  intro ants
  induction ants with
  | nil =>
    intro best h
    rcases h with h | h
    · simpa using h
    · simp at h
  | cons a rest ih =>
    intro best _
    simp only [List.foldl_cons]
    refine ih (updateBest best a) (Or.inl ?_)
    unfold updateBest
    rcases best with _ | b0
    · simp
    · by_cases hlt : a.2 < b0.2 <;> simp [hlt]

/-- The incumbent of the ACO iteration loop always satisfies, and after at
least one round with at least one ant exists. -/
theorem acoLoop_spec (n : ℕ) (rpow : ℚ → ℚ → ℚ) (cfg : ACOConfig) (D : Mat)
    (rng : ℕ → ℚ) (hn : 1 ≤ n) (hA : 1 ≤ cfg.numAnts) :
    ∀ (iters : ℕ) (ph : Mat) (best : Option (List ℕ × ℚ)) (ri : ℕ),
      (∀ b, best = some b → isDepotClosedTour n b.1 ∧ b.1.length = n + 1) →
      (∀ b, (acoLoop n rpow cfg D rng iters (ph, best, ri)).2.1 = some b →
          isDepotClosedTour n b.1 ∧ b.1.length = n + 1) ∧
        (1 ≤ iters ∨ best.isSome = true →
          ((acoLoop n rpow cfg D rng iters (ph, best, ri)).2.1).isSome = true) := by
  intro iters
  induction iters with
  | zero =>
    intro ph best ri hbest
    refine ⟨fun b hb => hbest b hb, ?_⟩
    rintro (h | h)
    · omega
    · simpa [acoLoop] using h
  | succ k ih =>
    intro ph best ri hbest
    have hants := buildAnts_spec n rpow cfg D rng hn cfg.numAnts ph ri
    have hsome : ((buildAnts n rpow cfg D ph rng cfg.numAnts ri).1.foldl updateBest
        best).isSome = true := by
      refine foldl_updateBest_isSome _ best (Or.inr ?_)
      have := buildAnts_length n rpow cfg D rng cfg.numAnts ph ri
      intro hnil
      rw [hnil] at this
      simp at this
      omega
    have hbest2 : ∀ b, (buildAnts n rpow cfg D ph rng cfg.numAnts ri).1.foldl updateBest
        best = some b → isDepotClosedTour n b.1 ∧ b.1.length = n + 1 :=
      fun b hb => foldl_updateBest_spec _ _ best hants hbest b hb
    obtain ⟨ihP, ihS⟩ := ih (updatePheromones cfg ph (buildAnts n rpow cfg D ph rng
      cfg.numAnts ri).1) ((buildAnts n rpow cfg D ph rng cfg.numAnts ri).1.foldl
      updateBest best) (buildAnts n rpow cfg D ph rng cfg.numAnts ri).2 hbest2
    constructor
    · intro b hb
      exact ihP b (by simpa [acoLoop] using hb)
    · intro _
      have := ihS (Or.inr hsome)
      simpa [acoLoop] using this

/-- `AntColonyOptimizer.optimize` returns a depot-closed permutation tour of
length `n + 1` whenever there is at least one point, one ant and one
iteration. -/
theorem acoOptimize_spec (rpow : ℚ → ℚ → ℚ) (hav : ℚ → ℚ → ℚ → ℚ → ℚ)
    (points : List Point) (cfg : ACOConfig) (rng : ℕ → ℚ)
    (hpts : 1 ≤ points.length) (hA : 1 ≤ cfg.numAnts) (hI : 1 ≤ cfg.numIterations) :
    isDepotClosedTour points.length (acoOptimize rpow hav points cfg rng) ∧
      (acoOptimize rpow hav points cfg rng).length = points.length + 1 := by
  obtain ⟨hP, hS⟩ := acoLoop_spec points.length rpow cfg (buildDistanceMatrix hav points)
    rng hpts hA cfg.numIterations (fun _ _ => 1) none 0 (by simp)
  have hsome := hS (Or.inl hI)
  simp only [acoOptimize]
  rcases hfin : (acoLoop points.length rpow cfg (buildDistanceMatrix hav points) rng
      cfg.numIterations (fun _ _ => 1, none, 0)).2.1 with _ | b
  · rw [hfin] at hsome; simp at hsome
  · simpa using hP b hfin

/-- C1: for every list of `n ≥ 1` points, `AntColonyOptimizer.optimize`
(with its constructor defaults) returns a tour that begins and ends at the
depot index 0 and whose interior contains each index of `1..n-1` exactly
once — a depot-closed permutation of `0..n-1`.  The weight function `rpow`,
the metric `hav` and the random stream `rng` are universally quantified, so
the property holds whatever `Math.pow`, the haversine and `Math.random`
deliver. -/
theorem C1_aco_returns_depot_closed_permutation (rpow : ℚ → ℚ → ℚ)
    (hav : ℚ → ℚ → ℚ → ℚ → ℚ) (rng : ℕ → ℚ) (points : List Point)
    (h : points ≠ []) :
    isDepotClosedTour points.length
      (acoOptimize rpow hav points (defaultACOConfig points.length) rng) := by
  have hn : 1 ≤ points.length := List.length_pos.mpr h
  exact (acoOptimize_spec rpow hav points (defaultACOConfig points.length) rng hn
    (by simp [defaultACOConfig]; omega) (by simp [defaultACOConfig]; omega)).1

/-- Witness for C1 at the one-point input `[P1]`. -/
theorem C1_witness :
    (([P1] : List Point) ≠ []) ∧
      isDepotClosedTour 1 (acoOptimize exRpow exHav0 [P1] (defaultACOConfig 1) exRng0) := by
  exact ⟨by decide,
    C1_aco_returns_depot_closed_permutation exRpow exHav0 exRng0 [P1] (by decide)⟩

/-- The neighbourhood scan records each candidate with its own distance and
its generating move. -/
theorem scanMoves_some (D : Mat) (current : List ℕ) (bestDistance : ℚ)
    (tabu : List (ℕ × ℕ)) (c : List ℕ × ℚ × (ℕ × ℕ))
    (h : scanMoves D current bestDistance tabu = some c) :
    c.2.1 = calculateTourDistance D c.1 ∧
      ∃ mv ∈ tabuMoves current.length, c.1 = twoOptSwap current mv.1 mv.2 := by
  have main : ∀ (ms : List (ℕ × ℕ)) (acc : Option (List ℕ × ℚ × (ℕ × ℕ))),
      ms ⊆ tabuMoves current.length →
      (∀ c0, acc = some c0 → c0.2.1 = calculateTourDistance D c0.1 ∧
        ∃ mv ∈ tabuMoves current.length, c0.1 = twoOptSwap current mv.1 mv.2) →
      ∀ c0, ms.foldl
          (fun acc ik =>
            let cand := twoOptSwap current ik.1 ik.2
            let cd := calculateTourDistance D cand
            if ik ∉ tabu ∨ cd < bestDistance then
              match acc with
              | none => some (cand, cd, ik)
              | some b => if cd < b.2.1 then some (cand, cd, ik) else acc
            else acc) acc = some c0 →
        c0.2.1 = calculateTourDistance D c0.1 ∧
          ∃ mv ∈ tabuMoves current.length, c0.1 = twoOptSwap current mv.1 mv.2 := by
    intro ms
    induction ms with
    | nil => intro acc _ hacc c0 h0; exact hacc c0 h0
    | cons mv rest ih =>
      intro acc hsub hacc c0 h0
      simp only [List.foldl_cons] at h0
      refine ih _ (fun x hx => hsub (by simp [hx])) ?_ c0 h0
      intro c1 hc1
      by_cases hcond : mv ∉ tabu ∨ calculateTourDistance D (twoOptSwap current mv.1 mv.2)
          < bestDistance
      · rw [if_pos hcond] at hc1
        rcases acc with _ | b
        · have hc2 : some (twoOptSwap current mv.1 mv.2, calculateTourDistance D
              (twoOptSwap current mv.1 mv.2), mv) = some c1 := hc1
          have : (twoOptSwap current mv.1 mv.2, calculateTourDistance D
              (twoOptSwap current mv.1 mv.2), mv) = c1 := Option.some.inj hc2
          subst this
          exact ⟨rfl, mv, hsub (by simp), rfl⟩
        · have hc2 : (if calculateTourDistance D (twoOptSwap current mv.1 mv.2) < b.2.1
              then some (twoOptSwap current mv.1 mv.2,
                calculateTourDistance D (twoOptSwap current mv.1 mv.2), mv)
              else some b) = some c1 := hc1
          by_cases hlt : calculateTourDistance D (twoOptSwap current mv.1 mv.2) < b.2.1
          · rw [if_pos hlt] at hc2
            have : (twoOptSwap current mv.1 mv.2, calculateTourDistance D
                (twoOptSwap current mv.1 mv.2), mv) = c1 := Option.some.inj hc2
            subst this
            exact ⟨rfl, mv, hsub (by simp), rfl⟩
          · rw [if_neg hlt] at hc2
            exact hacc c1 hc2
      · rw [if_neg hcond] at hc1
        exact hacc c1 hc1
  exact main (tabuMoves current.length) none (fun _ hx => hx) (by simp) c h

/-- The tabu loop never returns a tour worse than the incumbent. -/
theorem tabuLoop_le (D : Mat) (tenure : ℕ) :
    ∀ (fuel : ℕ) (current bestTour : List ℕ) (bestDistance : ℚ) (tabu : List (ℕ × ℕ)),
      calculateTourDistance D bestTour = bestDistance →
      calculateTourDistance D (tabuLoop D tenure fuel current bestTour bestDistance tabu)
        ≤ bestDistance := by
  intro fuel
  induction fuel with
  | zero => intro current bestTour bd tabu h; simpa [tabuLoop] using h.le
  | succ k ih =>
    intro current bestTour bd tabu h
    rcases hscan : scanMoves D current bd tabu with _ | c
    · simp only [tabuLoop, hscan]
      exact h.le
    · obtain ⟨hdist, -⟩ := scanMoves_some D current bd tabu c hscan
      simp only [tabuLoop, hscan]
      by_cases hlt : c.2.1 < bd
      · rw [if_pos hlt]
        exact le_trans (ih c.1 c.1 c.2.1 _ hdist.symm) hlt.le
      · rw [if_neg hlt]
        exact ih c.1 bestTour bd _ h

/-- C2: for every distance matrix, configuration and initial tour, the tour
returned by `TabuSearch.optimize` has total distance (sum of
consecutive-edge distances from the matrix) at most that of the initial
tour — refinement never worsens the input. -/
theorem C2_tabu_never_worsens (D : Mat) (cfg : TabuConfig) (initialTour : List ℕ) :
    calculateTourDistance D (tabuOptimize D cfg initialTour)
      ≤ calculateTourDistance D initialTour := by
  exact tabuLoop_le D cfg.tabuTenure cfg.maxIterations initialTour initialTour
    (calculateTourDistance D initialTour) [] rfl

/-- The bounds behind the neighbourhood enumeration: `1 ≤ i`, `i < k`,
`i < n - 1` and `k < n` with `n = len - 1`. -/
theorem tabuMoves_bounds {len : ℕ} {mv : ℕ × ℕ} (h : mv ∈ tabuMoves len) :
    1 ≤ mv.1 ∧ mv.1 + 1 ≤ mv.2 ∧ mv.1 + 3 ≤ len ∧ mv.2 + 2 ≤ len := by
  simp only [tabuMoves, List.mem_flatMap, List.mem_filterMap, List.mem_range] at h
  obtain ⟨i, hi, k, hk, hif⟩ := h
  by_cases hc : 1 ≤ i ∧ i + 1 ≤ k ∧ (i : ℤ) < (len : ℤ) - 2 ∧ (k : ℤ) < (len : ℤ) - 1
  · rw [if_pos hc] at hif
    obtain ⟨h1, h2, h3, h4⟩ := hc
    obtain rfl : (i, k) = mv := Option.some.inj hif
    refine ⟨h1, h2, ?_, ?_⟩ <;> omega
  · rw [if_neg hc] at hif
    exact absurd hif (by simp)

/-- A 2-opt swap inside the enumerated bounds permutes the tour. -/
theorem twoOptSwap_perm {t : List ℕ} {i k : ℕ} (hik : i ≤ k + 1) (hk : k + 1 ≤ t.length) :
    (twoOptSwap t i k).Perm t := by
  unfold twoOptSwap
  have hdd : (t.drop i).drop (k + 1 - i) = t.drop (k + 1) := by
    rw [List.drop_drop]
    congr 1
    omega
  have h1 : (((t.drop i).take (k + 1 - i)).reverse ++ t.drop (k + 1)).Perm
      ((t.drop i).take (k + 1 - i) ++ t.drop (k + 1)) :=
    (List.reverse_perm _).append_right _
  have h2 := h1.append_left (t.take i)
  rw [List.append_assoc]
  refine h2.trans ?_
  rw [← hdd, List.take_append_drop, List.take_append_drop]

/-- A 2-opt swap inside the enumerated bounds preserves the length. -/
theorem twoOptSwap_length {t : List ℕ} {i k : ℕ} (hik : i ≤ k + 1) (hk : k + 1 ≤ t.length) :
    (twoOptSwap t i k).length = t.length :=
  (twoOptSwap_perm hik hk).length_eq

/-- A 2-opt swap with `1 ≤ i` keeps the head. -/
theorem twoOptSwap_head? {t : List ℕ} {i k : ℕ} (hi : 1 ≤ i) :
    (twoOptSwap t i k).head? = t.head? := by
  unfold twoOptSwap
  rcases t with _ | ⟨a, rest⟩
  · simp
  · rcases i with _ | i
    · omega
    · simp [List.head?_append]

/-- A 2-opt swap with `k + 2 ≤ t.length` keeps the last element. -/
theorem twoOptSwap_getLast? {t : List ℕ} {i k : ℕ} (hk : k + 2 ≤ t.length) :
    (twoOptSwap t i k).getLast? = t.getLast? := by
  have hne : t.drop (k + 1) ≠ [] := by
    intro hnil
    rw [List.drop_eq_nil_iff] at hnil
    omega
  unfold twoOptSwap
  have h1 : (t.take i ++ (((t.drop i).take (k + 1 - i)).reverse ++ t.drop (k + 1))).getLast?
      = (((t.drop i).take (k + 1 - i)).reverse ++ t.drop (k + 1)).getLast? :=
    List.getLast?_append_of_ne_nil _ (by simp [hne])
  have h2 : (((t.drop i).take (k + 1 - i)).reverse ++ t.drop (k + 1)).getLast?
      = (t.drop (k + 1)).getLast? := List.getLast?_append_of_ne_nil _ hne
  rw [List.append_assoc, h1, h2, List.getLast?_drop, if_neg (by omega)]

/-- A list of length at least 2 with head and last both 0 splits as
`0 :: mid ++ [0]`. -/
theorem closed_shape {t : List ℕ} (hhead : t.head? = some 0)
    (hlast : t.getLast? = some 0) (hlen : 2 ≤ t.length) :
    ∃ mid, t = 0 :: mid ++ [0] := by
  rcases t with _ | ⟨a, u⟩
  · simp at hhead
  · obtain rfl : a = 0 := by simpa using hhead
    rcases u with _ | ⟨b, v⟩
    · simp at hlen
    · have hu : (b :: v) ≠ [] := by simp
      have hlast2 : (b :: v).getLast? = some 0 := by
        rw [List.getLast?_cons_cons] at hlast
        exact hlast
      refine ⟨(b :: v).dropLast, ?_⟩
      have hsplit := List.dropLast_append_getLast hu
      rw [List.getLast?_eq_getLast _ hu] at hlast2
      have hg : (b :: v).getLast hu = 0 := by simpa using hlast2
      rw [hg] at hsplit
      rw [List.cons_append, hsplit]

/-- The interior of a closed shape is the middle segment. -/
theorem interior_of_shape (mid : List ℕ) :
    (((0 : ℕ) :: mid ++ [0]).drop 1).dropLast = mid := by
  simp [List.dropLast_concat]

/-- Rebuilding a depot-closed tour from a closed shape. -/
theorem depotClosed_of_shape {n : ℕ} {mid : List ℕ}
    (hperm : mid.Perm ((List.range n).drop 1)) :
    isDepotClosedTour n (0 :: mid ++ [0]) := by
  refine ⟨rfl, ?_, ?_⟩
  · show ((0 :: mid) ++ [0]).getLast? = some 0
    exact List.getLast?_concat _
  · simpa [List.dropLast_concat] using hperm

/-- A 2-opt move from the enumerated neighbourhood sends a depot-closed
tour of matching length to another one. -/
theorem twoOptSwap_preserves {n : ℕ} {t : List ℕ} {mv : ℕ × ℕ}
    (ht : isDepotClosedTour n t) (hlen : t.length = n + 1)
    (hmv : mv ∈ tabuMoves t.length) :
    isDepotClosedTour n (twoOptSwap t mv.1 mv.2) ∧
      (twoOptSwap t mv.1 mv.2).length = n + 1 := by
  obtain ⟨h1, h2, h3, h4⟩ := tabuMoves_bounds hmv
  have hik : mv.1 ≤ mv.2 + 1 := by omega
  have hk1 : mv.2 + 1 ≤ t.length := by omega
  have hperm : (twoOptSwap t mv.1 mv.2).Perm t := twoOptSwap_perm hik hk1
  have hlen2 : (twoOptSwap t mv.1 mv.2).length = n + 1 := hperm.length_eq.trans hlen
  obtain ⟨mid, hmid⟩ := closed_shape ht.1 ht.2.1 (by omega)
  have hmidperm : mid.Perm ((List.range n).drop 1) := by
    have := ht.2.2
    rw [hmid] at this
    simpa [interior_of_shape] using this
  have hswaphead : (twoOptSwap t mv.1 mv.2).head? = some 0 :=
    (twoOptSwap_head? h1).trans ht.1
  have hswaplast : (twoOptSwap t mv.1 mv.2).getLast? = some 0 :=
    (twoOptSwap_getLast? (by omega)).trans ht.2.1
  obtain ⟨mid2, hmid2⟩ := closed_shape hswaphead hswaplast (by omega)
  have hwhole : (0 :: mid2 ++ [0]).Perm (0 :: mid ++ [0]) := by
    rw [← hmid2, ← hmid]
    exact hperm
  have hcons : (mid2 ++ [0]).Perm (mid ++ [0]) := hwhole.cons_inv
  have hmid3 : mid2.Perm mid := (List.perm_append_right_iff [0]).mp hcons
  refine ⟨?_, hlen2⟩
  rw [hmid2]
  exact depotClosed_of_shape (hmid3.trans hmidperm)

/-- The tabu loop sends a depot-closed current/best pair to a depot-closed
best tour of the same length. -/
theorem tabuLoop_preserves (D : Mat) (tenure n : ℕ) :
    ∀ (fuel : ℕ) (current bestTour : List ℕ) (bd : ℚ) (tabu : List (ℕ × ℕ)),
      isDepotClosedTour n current → current.length = n + 1 →
      isDepotClosedTour n bestTour → bestTour.length = n + 1 →
      isDepotClosedTour n (tabuLoop D tenure fuel current bestTour bd tabu) ∧
        (tabuLoop D tenure fuel current bestTour bd tabu).length = n + 1 := by
  intro fuel
  induction fuel with
  | zero =>
    intro current bestTour bd tabu _ _ hb1 hb2
    exact ⟨hb1, hb2⟩
  | succ k ih =>
    intro current bestTour bd tabu hc1 hc2 hb1 hb2
    rcases hscan : scanMoves D current bd tabu with _ | c
    · simp only [tabuLoop, hscan]
      exact ⟨hb1, hb2⟩
    · obtain ⟨-, mv, hmv, hcand⟩ := scanMoves_some D current bd tabu c hscan
      have hcpres : isDepotClosedTour n c.1 ∧ c.1.length = n + 1 := by
        rw [hcand]
        exact twoOptSwap_preserves hc1 hc2 (by rwa [hc2] at hmv ⊢)
      simp only [tabuLoop, hscan]
      by_cases hlt : c.2.1 < bd
      · rw [if_pos hlt]
        exact ih c.1 c.1 c.2.1 _ hcpres.1 hcpres.2 hcpres.1 hcpres.2
      · rw [if_neg hlt]
        exact ih c.1 bestTour bd _ hcpres.1 hcpres.2 hb1 hb2

/-- `TabuSearch.optimize` preserves the depot-closed permutation invariant
and the tour length. -/
theorem tabuOptimize_preserves {n : ℕ} (D : Mat) (cfg : TabuConfig) {t : List ℕ}
    (ht : isDepotClosedTour n t) (hlen : t.length = n + 1) :
    isDepotClosedTour n (tabuOptimize D cfg t) ∧
      (tabuOptimize D cfg t).length = n + 1 :=
  tabuLoop_preserves D cfg.tabuTenure n cfg.maxIterations t t
    (calculateTourDistance D t) [] ht hlen ht hlen

/-- Tours with at most 2 interior positions have an empty 2-opt
neighbourhood. -/
theorem tabuMoves_eq_nil_of_le_three {len : ℕ} (h : len ≤ 3) : tabuMoves len = [] := by
  interval_cases len <;> decide

/-- When the scan of the fixed current tour finds nothing, the loop returns
the incumbent unchanged. -/
theorem tabuLoop_of_no_moves (D : Mat) (tenure : ℕ) {current : List ℕ}
    (hmoves : tabuMoves current.length = []) :
    ∀ (fuel : ℕ) (bestTour : List ℕ) (bd : ℚ) (tabu : List (ℕ × ℕ)),
      tabuLoop D tenure fuel current bestTour bd tabu = bestTour := by
  intro fuel
  cases fuel with
  | zero => intro bestTour bd tabu; rfl
  | succ k =>
    intro bestTour bd tabu
    have hscan : scanMoves D current bd tabu = none := by
      unfold scanMoves
      rw [hmoves]
      rfl
    simp only [tabuLoop, hscan]

/-- On a closed 4-list, one loop round either stops or flips the interior
pair at unchanged distance, so the incumbent never changes. -/
theorem tabuLoop_len4 (D : Mat) (hsym : ∀ i j, D i j = D j i) (tenure : ℕ) (z : ℕ)
    (d0 : ℚ) :
    ∀ (fuel : ℕ) (x y : ℕ) (bestTour : List ℕ) (tabu : List (ℕ × ℕ)),
      calculateTourDistance D [z, x, y, z] = d0 →
      tabuLoop D tenure fuel [z, x, y, z] bestTour d0 tabu = bestTour := by
  intro fuel
  induction fuel with
  | zero => intro x y bestTour tabu _; rfl
  | succ k ih =>
    intro x y bestTour tabu hd
    have hswap : twoOptSwap [z, x, y, z] 1 2 = [z, y, x, z] := rfl
    have hcd : calculateTourDistance D [z, y, x, z] = d0 := by
      rw [← hd]
      simp only [calculateTourDistance]
      simp [hsym z y, hsym y x, hsym x z]
      ring
    have hfold : scanMoves D [z, x, y, z] d0 tabu
        = if (1, 2) ∉ tabu ∨ calculateTourDistance D [z, y, x, z] < d0 then
            some ([z, y, x, z], calculateTourDistance D [z, y, x, z], (1, 2))
          else none := by
      unfold scanMoves
      rw [show ([z, x, y, z] : List ℕ).length = 4 from rfl,
        show tabuMoves 4 = [(1, 2)] from by decide]
      simp only [List.foldl_cons, List.foldl_nil, hswap]
    by_cases hcond : (1, 2) ∉ tabu ∨ calculateTourDistance D [z, y, x, z] < d0
    · have hscan : scanMoves D [z, x, y, z] d0 tabu
          = some ([z, y, x, z], calculateTourDistance D [z, y, x, z], (1, 2)) := by
        rw [hfold, if_pos hcond]
      simp only [tabuLoop, hscan]
      rw [if_neg (by rw [hcd]; exact lt_irrefl d0)]
      exact ih y x bestTour _ hcd
    · have hscan : scanMoves D [z, x, y, z] d0 tabu = none := by
        rw [hfold, if_neg hcond]
      simp only [tabuLoop, hscan]

/-- C7 (amended): for every symmetric distance matrix and depot-closed
initial tour with fewer than 3 interior stops (tour length at most 4), no
2-opt move of the enumerated neighbourhood strictly improves the tour, and
`TabuSearch.optimize` returns the initial tour unchanged, whatever the
configuration.  (With exactly 3 interior stops an improving move can exist
and the tour can change — see the counterexample.) -/
theorem C7_short_tour_unchanged (D : Mat) (cfg : TabuConfig) (t : List ℕ)
    (hsym : ∀ i j, D i j = D j i) (hclosed : t.head? = t.getLast?)
    (hlen : t.length ≤ 4) :
    (∀ mv ∈ tabuMoves t.length, ¬ calculateTourDistance D (twoOptSwap t mv.1 mv.2)
        < calculateTourDistance D t) ∧
      tabuOptimize D cfg t = t := by
  by_cases hlen3 : t.length ≤ 3
  · have hmoves : tabuMoves t.length = [] := tabuMoves_eq_nil_of_le_three hlen3
    constructor
    · intro mv hmv
      rw [hmoves] at hmv
      simp at hmv
    · exact tabuLoop_of_no_moves D cfg.tabuTenure hmoves cfg.maxIterations t
        (calculateTourDistance D t) []
  · have hlen4 : t.length = 4 := by omega
    rcases t with _ | ⟨z, t1⟩
    · simp at hlen4
    rcases t1 with _ | ⟨a, t2⟩
    · simp at hlen4
    rcases t2 with _ | ⟨b, t3⟩
    · simp at hlen4
    rcases t3 with _ | ⟨w, t4⟩
    · simp at hlen4
    have ht4 : t4 = [] := by
      simp only [List.length_cons] at hlen4
      exact List.length_eq_zero.mp (by omega)
    subst ht4
    have hzw : z = w := by
      simp [List.getLast?] at hclosed
      exact hclosed
    subst hzw
    have hm4 : tabuMoves ([z, a, b, z] : List ℕ).length = [(1, 2)] := by
      rw [show ([z, a, b, z] : List ℕ).length = 4 from rfl]
      decide
    have hswap : twoOptSwap [z, a, b, z] 1 2 = [z, b, a, z] := rfl
    have hcd : calculateTourDistance D [z, b, a, z] = calculateTourDistance D [z, a, b, z] := by
      simp only [calculateTourDistance]
      simp [hsym z b, hsym b a, hsym a z]
      ring
    constructor
    · intro mv hmv
      rw [hm4] at hmv
      simp only [List.mem_singleton] at hmv
      subst hmv
      rw [hswap, hcd]
      exact lt_irrefl _
    · exact tabuLoop_len4 D hsym cfg.tabuTenure z (calculateTourDistance D [z, a, b, z])
        cfg.maxIterations a b [z, a, b, z] [] rfl

/-- Witness for C7 on the closed 2-interior tour `[0, 1, 2, 0]` with the
constant-zero (symmetric) matrix. -/
theorem C7_witness :
    (([0, 1, 2, 0] : List ℕ).head? = ([0, 1, 2, 0] : List ℕ).getLast?
        ∧ ([0, 1, 2, 0] : List ℕ).length ≤ 4)
      ∧ tabuOptimize (fun _ _ => 0) (defaultTabuConfig 4) [0, 1, 2, 0] = [0, 1, 2, 0] := by
  exact ⟨⟨by decide, by decide⟩,
    (C7_short_tour_unchanged (fun _ _ => 0) (defaultTabuConfig 4) [0, 1, 2, 0]
      (fun _ _ => rfl) (by decide) (by decide)).2⟩

/-- For at least two input stops, the ACO + tabu pipeline returns the depot
row of `allPoints` followed by the interior indices (a permutation of
`1..n-1`) mapped back to points. -/
theorem optimizeRouteACOTabu_shape (rpow : ℚ → ℚ → ℚ) (hav : ℚ → ℚ → ℚ → ℚ → ℚ)
    (rng : ℕ → ℚ) (points : List Point) (sp : Option Point)
    (h2 : 2 ≤ points.length) :
    ∃ mid : List ℕ, mid.Perm ((List.range (allPointsOf points sp).length).drop 1) ∧
      optimizeRouteACOTabu rpow hav rng points sp
        = (allPointsOf points sp).getD 0 dummyPoint
            :: mid.map fun idx => (allPointsOf points sp).getD idx dummyPoint := by
  have hn : 1 ≤ (allPointsOf points sp).length := by
    rcases sp with _ | s
    · simpa [allPointsOf] using by omega
    · simp [allPointsOf]
  set n := (allPointsOf points sp).length with hndef
  have haco := acoOptimize_spec rpow hav (allPointsOf points sp) (defaultACOConfig n) rng
    hn (by simp [defaultACOConfig]; omega) (by simp [defaultACOConfig]; omega)
  have hfinal := tabuOptimize_preserves (buildDistanceMatrix hav (allPointsOf points sp))
    (defaultTabuConfig n) haco.1 haco.2
  set final := tabuOptimize (buildDistanceMatrix hav (allPointsOf points sp))
    (defaultTabuConfig n)
    (acoOptimize rpow hav (allPointsOf points sp) (defaultACOConfig n) rng) with hfinaldef
  obtain ⟨mid, hmid⟩ := closed_shape hfinal.1.1 hfinal.1.2.1 (by omega)
  have hmidperm : mid.Perm ((List.range n).drop 1) := by
    have := hfinal.1.2.2
    rw [hmid] at this
    simpa [interior_of_shape] using this
  refine ⟨mid, hmidperm, ?_⟩
  have hne0 : ¬ points.length = 0 := by omega
  have hne1 : ¬ points.length = 1 := by omega
  unfold optimizeRouteACOTabu
  rw [if_neg hne0, if_neg hne1]
  show final.dropLast.map _ = _
  rw [hmid]
  have hdrop : ((0 : ℕ) :: mid ++ [0]).dropLast = 0 :: mid := by
    show ((0 :: mid) ++ [0]).dropLast = 0 :: mid
    rw [List.dropLast_concat]
  rw [hdrop]
  simp

/-- Membership in an interior-mapped point: indices `1 ≤ idx < n` of
`s :: filtered` land in `filtered`. -/
theorem getD_cons_mem_tail {s : Point} {filtered : List Point} {idx : ℕ}
    (h1 : 1 ≤ idx) (h2 : idx < (s :: filtered).length) :
    (s :: filtered).getD idx dummyPoint ∈ filtered := by
  rcases idx with _ | j
  · omega
  · rw [List.getD_cons_succ]
    have hj : j < filtered.length := by simpa using h2
    rw [List.getD_eq_getElem filtered dummyPoint hj]
    exact filtered.getElem_mem hj

/-- C6 (amended): with a depot and at least two stops, at least one of
which does not share the depot's id, the list returned by
`optimizeRouteACOTabu` — the stage that drops the closing depot-return —
contains the depot exactly once, at the front, and its last element is not
the depot.  (`calculateOptimalRoute` then re-closes the loop around this
list, so the route it hands to the caller begins *and ends* with the depot —
see the counterexample.) -/
theorem C6_inner_order_drops_depot_return (rpow : ℚ → ℚ → ℚ) (hav : ℚ → ℚ → ℚ → ℚ → ℚ)
    (rng : ℕ → ℚ) (points : List Point) (s : Point)
    (h2 : 2 ≤ points.length) (hex : ∃ p ∈ points, p.id ≠ s.id) :
    (optimizeRouteACOTabu rpow hav rng points (some s)).head? = some s ∧
      (optimizeRouteACOTabu rpow hav rng points (some s)).count s = 1 ∧
      (optimizeRouteACOTabu rpow hav rng points (some s)).getLast? ≠ some s := by
  obtain ⟨mid, hmidperm, hshape⟩ :=
    optimizeRouteACOTabu_shape rpow hav rng points (some s) h2
  have hall : allPointsOf points (some s) = s :: points.filter fun p => p.id ≠ s.id := rfl
  set filtered := points.filter fun p => p.id ≠ s.id with hfiltered
  have hfilter_ne : filtered ≠ [] := by
    obtain ⟨p, hp, hpid⟩ := hex
    intro hnil
    have : p ∈ filtered := List.mem_filter.mpr ⟨hp, by simpa using hpid⟩
    rw [hnil] at this
    simp at this
  have hmem_tail : ∀ idx ∈ mid, (allPointsOf points (some s)).getD idx dummyPoint ∈ filtered := by
    intro idx hidx
    have hrange := hmidperm.mem_iff.mp hidx
    rw [mem_range_drop_one] at hrange
    rw [hall]
    exact getD_cons_mem_tail hrange.1 (by rw [hall] at hrange; simpa using hrange.2)
  have hne_s : ∀ idx ∈ mid, (allPointsOf points (some s)).getD idx dummyPoint ≠ s := by
    intro idx hidx heq
    have := List.mem_filter.mp (hmem_tail idx hidx)
    rw [heq] at this
    simp at this
  have hhead : (allPointsOf points (some s)).getD 0 dummyPoint = s := by
    rw [hall, List.getD_cons_zero]
  have hmid_ne : mid ≠ [] := by
    intro hnil
    rw [hnil] at hmidperm
    have hlen := hmidperm.length_eq
    have hfl : 1 ≤ filtered.length := List.length_pos.mpr hfilter_ne
    rw [hall] at hlen
    simp at hlen
    omega
  rw [hshape, hhead]
  refine ⟨rfl, ?_, ?_⟩
  · rw [List.count_cons]
    have hzero : (mid.map fun idx => (allPointsOf points (some s)).getD idx dummyPoint).count s
        = 0 := by
      rw [List.count_eq_zero]
      intro hmem
      obtain ⟨idx, hidx, heq⟩ := List.mem_map.mp hmem
      exact hne_s idx hidx heq
    rw [hzero]
    simp
  · have hmap_ne : (mid.map fun idx => (allPointsOf points (some s)).getD idx dummyPoint) ≠ [] := by
      simpa using hmid_ne
    rcases hlast : (mid.map fun idx => (allPointsOf points (some s)).getD idx dummyPoint).getLast?
      with _ | x
    · rw [List.getLast?_eq_none_iff] at hlast
      exact absurd hlast hmap_ne
    · have hx : x ∈ mid.map fun idx => (allPointsOf points (some s)).getD idx dummyPoint :=
        List.mem_of_getLast?_eq_some hlast
      obtain ⟨idx, hidx, heq⟩ := List.mem_map.mp hx
      have hxs : x ≠ s := heq ▸ hne_s idx hidx
      rw [List.getLast?_cons, hlast]
      simp
      exact fun hfalse => hxs hfalse

/-- Witness for C6: two stops and a depot. -/
theorem C6_witness :
    (2 ≤ ([P1, P2] : List Point).length ∧ (∃ p ∈ ([P1, P2] : List Point), p.id ≠ Spt.id)) ∧
      ((optimizeRouteACOTabu exRpow exHav0 exRng0 [P1, P2] (some Spt)).head? = some Spt ∧
        (optimizeRouteACOTabu exRpow exHav0 exRng0 [P1, P2] (some Spt)).count Spt = 1 ∧
        (optimizeRouteACOTabu exRpow exHav0 exRng0 [P1, P2] (some Spt)).getLast? ≠ some Spt) := by
  exact ⟨⟨by decide, by decide⟩,
    C6_inner_order_drops_depot_return exRpow exHav0 exRng0 [P1, P2] Spt (by decide) (by decide)⟩

/-- For a non-singleton input with a depot, every returned stop is the
depot or one of the filtered input stops. -/
theorem optimizeRouteACOTabu_subset (rpow : ℚ → ℚ → ℚ) (hav : ℚ → ℚ → ℚ → ℚ → ℚ)
    (rng : ℕ → ℚ) (points : List Point) (sp : Option Point)
    (h1 : points.length ≠ 1) :
    ∀ x ∈ optimizeRouteACOTabu rpow hav rng points sp, x ∈ allPointsOf points sp := by
  intro x hx
  by_cases h0 : points.length = 0
  · unfold optimizeRouteACOTabu at hx
    rw [if_pos h0] at hx
    simp at hx
  · have h2 : 2 ≤ points.length := by omega
    obtain ⟨mid, hmidperm, hshape⟩ := optimizeRouteACOTabu_shape rpow hav rng points sp h2
    rw [hshape] at hx
    have hn : 1 ≤ (allPointsOf points sp).length := by
      rcases sp with _ | s
      · simpa [allPointsOf] using by omega
      · simp [allPointsOf]
    rcases List.mem_cons.mp hx with rfl | hx2
    · rw [List.getD_eq_getElem _ dummyPoint (by omega)]
      exact List.getElem_mem _
    · obtain ⟨idx, hidx, heq⟩ := List.mem_map.mp hx2
      have hrange := hmidperm.mem_iff.mp hidx
      rw [mem_range_drop_one] at hrange
      rw [← heq, List.getD_eq_getElem _ dummyPoint hrange.2]
      exact List.getElem_mem _

/-- C10 (amended): deduplication against the depot is by id only, and it
removes such stops from the returned order at the `calculateOptimalRoute`
level unconditionally, and at the `optimizeRouteACOTabu` level whenever the
stop list is not a singleton (the singleton shortcut skips the filter — see
the counterexample). -/
theorem C10_depot_id_filtered_out :
    (∀ (rpow : ℚ → ℚ → ℚ) (hav : ℚ → ℚ → ℚ → ℚ → ℚ)
        (road : Point → Point → Option RouteSegment) (rng : ℕ → ℚ)
        (points : List Point) (s q : Point) (r : RouteResult),
        q.id = s.id → q ≠ s →
        calculateOptimalRoute rpow hav road rng points (some s) = Except.ok r →
        q ∉ r.route) ∧
      (∀ (rpow : ℚ → ℚ → ℚ) (hav : ℚ → ℚ → ℚ → ℚ → ℚ) (rng : ℕ → ℚ)
        (points : List Point) (s q : Point),
        points.length ≠ 1 → q.id = s.id → q ≠ s →
        q ∉ optimizeRouteACOTabu rpow hav rng points (some s)) := by
  have haux : ∀ (rpow : ℚ → ℚ → ℚ) (hav : ℚ → ℚ → ℚ → ℚ → ℚ) (rng : ℕ → ℚ)
      (points : List Point) (s q : Point),
      points.length ≠ 1 → q.id = s.id → q ≠ s →
      q ∉ optimizeRouteACOTabu rpow hav rng points (some s) := by
    intro rpow hav rng points s q h1 hid hqs hq
    have := optimizeRouteACOTabu_subset rpow hav rng points (some s) h1 q hq
    rcases List.mem_cons.mp this with heq | hmem
    · exact hqs heq
    · have := List.mem_filter.mp hmem
      rw [hid] at this
      simp at this
  refine ⟨?_, haux⟩
  intro rpow hav road rng points s q r hid hqs hok
  have hguard : ¬ (points.length < 2 ∧ (some s : Option Point) = none) := by simp
  unfold calculateOptimalRoute at hok
  rw [if_neg hguard] at hok
  have hroute : r.route
      = s :: optimizeRouteOrder rpow hav rng (points.filter fun p => p.id ≠ s.id) (some s)
          ++ [s] := by
    have := Except.ok.inj hok
    rw [← this]
  rw [hroute]
  intro hmem
  rcases List.mem_cons.mp hmem with heq | hmem2
  · exact hqs heq
  rcases List.mem_append.mp hmem2 with hmid | hend
  · set filtered := points.filter fun p => p.id ≠ s.id with hfiltered
    have hnotin_f : q ∉ filtered := by
      intro hqf
      have := List.mem_filter.mp hqf
      rw [hid] at this
      simp at this
    unfold optimizeRouteOrder at hmid
    by_cases hf0 : filtered.length = 0
    · rw [if_pos hf0] at hmid
      simp at hmid
    · rw [if_neg hf0] at hmid
      by_cases hf1 : filtered.length = 1
      · rw [if_pos hf1] at hmid
        exact hnotin_f hmid
      · rw [if_neg hf1] at hmid
        have := optimizeRouteACOTabu_subset rpow hav rng filtered (some s) hf1 q hmid
        rcases List.mem_cons.mp this with heq | hmem3
        · exact hqs heq
        · have := List.mem_filter.mp hmem3
          rw [hid] at this
          simp at this
  · simp at hend
    exact hqs hend

/-- Witness for C10: a stop `Qdup` sharing the depot id is absent both from
the caller-facing route on `[P1, Qdup]` and from the inner optimizer's
output on the same (non-singleton) list. -/
theorem C10_witness :
    (Qdup.id = Spt.id ∧ Qdup ≠ Spt ∧ ([P1, Qdup] : List Point).length ≠ 1) ∧
      (∀ r, calculateOptimalRoute exRpow exHav0 roadOne exRng0 [P1, Qdup] (some Spt)
          = Except.ok r → Qdup ∉ r.route) ∧
      Qdup ∉ optimizeRouteACOTabu exRpow exHav0 exRng0 [P1, Qdup] (some Spt) := by
  refine ⟨⟨rfl, by decide, by decide⟩, ?_, ?_⟩
  · intro r hok
    exact C10_depot_id_filtered_out.1 exRpow exHav0 roadOne exRng0 [P1, Qdup] Spt Qdup r
      rfl (by decide) hok
  · exact C10_depot_id_filtered_out.2 exRpow exHav0 exRng0 [P1, Qdup] Spt Qdup
      (by decide) rfl (by decide)

/-- C4 (amended): `calculateOptimalRoute` fails — returns an error, not a
crash — exactly when the stop list has fewer than 2 stops *and* no depot is
given (so a single stop with no depot is also rejected); the rejection is
the function's first, up-front guard, before any optimization work, and in
every other case the call succeeds. -/
theorem C4_error_iff_too_few_stops (rpow : ℚ → ℚ → ℚ) (hav : ℚ → ℚ → ℚ → ℚ → ℚ)
    (road : Point → Point → Option RouteSegment) (rng : ℕ → ℚ)
    (points : List Point) (startEndPoint : Option Point) :
    (calculateOptimalRoute rpow hav road rng points startEndPoint).isOk = false
      ↔ points.length < 2 ∧ startEndPoint = none := by
  unfold calculateOptimalRoute
  by_cases hguard : points.length < 2 ∧ startEndPoint = none
  · rw [if_pos hguard]
    exact iff_of_true rfl hguard
  · rw [if_neg hguard]
    refine iff_of_false (fun hfalse => ?_) hguard
    have hb : (true : Bool) = false := hfalse
    exact Bool.noConfusion hb

/-- C8 (amended): the count-only fleet path with exactly one vehicle
delegates to the single-route pipeline and reproduces its stop order and
totals exactly.  (The capacity path with one amply-sized vehicle does not:
it re-sorts stops by descending load first, and can return a different
order and total — see the counterexample.) -/
theorem C8_single_vehicle_delegates (rpow : ℚ → ℚ → ℚ) (hav : ℚ → ℚ → ℚ → ℚ → ℚ)
    (road : Point → Point → Option RouteSegment) (rng : ℕ → ℚ)
    (points : List Point) (st : Option Point) (h : points ≠ []) (single : RouteResult)
    (hok : calculateOptimalRoute rpow hav road rng points st = Except.ok single) :
    ∃ r, calculateOptimalRoutes rpow hav road rng points 1 st = Except.ok r ∧
      r.routes = [single] ∧ r.totalDistance = single.totalDistance ∧
      r.totalDuration = single.totalDuration := by
  have hlen : ¬ points.length = 0 := by simpa using h
  have hk : max 1 (Int.toNat ⌊if (1 : ℚ) = 0 then 1 else (1 : ℚ)⌋) = 1 := by norm_num
  refine ⟨{ routes := [single]
            totalDistance := single.totalDistance
            totalDuration := single.totalDuration
            meanDuration := single.totalDuration
            vehicleLoads := none, vehicleNames := none, vehicleCapacities := none }, ?_, rfl, rfl, rfl⟩
  simp only [calculateOptimalRoutes, hk, hlen]
  rw [if_neg (by simp), if_pos trivial, hok]
  rfl

/-- Witness for C8: the delegation at the concrete two-stop input. -/
theorem C8_witness :
    (([P1, P2] : List Point) ≠ [] ∧
        calculateOptimalRoute exRpow exHav0 roadOne exRng0 [P1, P2] (some Spt)
          = Except.ok exSingle) ∧
      ∃ r, calculateOptimalRoutes exRpow exHav0 roadOne exRng0 [P1, P2] 1 (some Spt)
          = Except.ok r ∧ r.routes = [exSingle] ∧
          r.totalDistance = exSingle.totalDistance ∧
          r.totalDuration = exSingle.totalDuration := by
  refine ⟨⟨by decide, by with_unfolding_all rfl⟩, ?_⟩
  exact C8_single_vehicle_delegates exRpow exHav0 roadOne exRng0 [P1, P2] (some Spt)
    (by decide) exSingle (by with_unfolding_all rfl)

/-- `Except.map` hits `ok` only through `ok`. -/
theorem except_map_ok {ε α β : Type} (f : α → β) (e : Except ε α) (r : β)
    (h : e.map f = Except.ok r) : ∃ a, e = Except.ok a ∧ r = f a := by
  cases e with
  | error e0 => simp [Except.map] at h
  | ok a => exact ⟨a, rfl, by simpa [Except.map] using h.symm⟩

/-- An order produced by `optimizeRouteOrder` on a non-empty stop list is
non-empty. -/
theorem optimizeRouteOrder_ne_nil (rpow : ℚ → ℚ → ℚ) (hav : ℚ → ℚ → ℚ → ℚ → ℚ)
    (rng : ℕ → ℚ) (points : List Point) (sp : Option Point) (hne : points ≠ []) :
    optimizeRouteOrder rpow hav rng points sp ≠ [] := by
  unfold optimizeRouteOrder
  have h0 : ¬ points.length = 0 := by simpa using hne
  rw [if_neg h0]
  by_cases h1 : points.length = 1
  · rw [if_pos h1]; exact hne
  · rw [if_neg h1]
    obtain ⟨mid, -, hshape⟩ := optimizeRouteACOTabu_shape rpow hav rng points sp (by omega)
    rw [hshape]
    simp

/-- A successful `calculateOptimalRoute` on a non-empty stop list returns a
non-empty route. -/
theorem calculateOptimalRoute_route_ne_nil (rpow : ℚ → ℚ → ℚ) (hav : ℚ → ℚ → ℚ → ℚ → ℚ)
    (road : Point → Point → Option RouteSegment) (rng : ℕ → ℚ)
    (points : List Point) (st : Option Point) (r : RouteResult) (hne : points ≠ [])
    (hok : calculateOptimalRoute rpow hav road rng points st = Except.ok r) :
    r.route ≠ [] := by
  unfold calculateOptimalRoute at hok
  by_cases hguard : points.length < 2 ∧ st = none
  · rw [if_pos hguard] at hok
    exact absurd hok (by simp)
  · rw [if_neg hguard] at hok
    have hr := Except.ok.inj hok
    rw [← hr]
    rcases st with _ | s
    · exact optimizeRouteOrder_ne_nil rpow hav rng points none hne
    · simp

/-- The per-vehicle loop appends one result per cluster: empty clusters as
the zero entry, non-empty ones as a successful single-route result with a
non-empty route; totals are the sums over the new entries. -/
theorem routesLoop_spec (rpow : ℚ → ℚ → ℚ) (hav : ℚ → ℚ → ℚ → ℚ → ℚ)
    (road : Point → Point → Option RouteSegment) (rng : ℕ → ℚ) (st : Option Point) :
    ∀ (clusters : List (List Point)) (acc : List RouteResult × ℚ × ℚ)
      (out : List RouteResult × ℚ × ℚ),
      routesLoop rpow hav road rng st clusters acc = Except.ok out →
      ∃ rs : List RouteResult, out.1 = acc.1 ++ rs ∧ rs.length = clusters.length ∧
        out.2.1 = acc.2.1 + (rs.map (fun x => x.totalDistance)).sum ∧
        out.2.2 = acc.2.2 + (rs.map (fun x => x.totalDuration)).sum ∧
        ∀ j, j < clusters.length →
          ((clusters.getD j []).isEmpty = true →
            rs.getD j emptyRouteResult = emptyRouteResult) ∧
          ((clusters.getD j []).isEmpty = false →
            (rs.getD j emptyRouteResult).route ≠ []) := by
  intro clusters
  induction clusters with
  | nil =>
    intro acc out hok
    have hacc : acc = out := by simpa [routesLoop] using hok
    exact ⟨[], by simp [hacc], by simp, by simp [hacc], by simp [hacc], by intro j hj; simp at hj⟩
  | cons c rest ih =>
    intro acc out hok
    by_cases hc : c.isEmpty
    · rw [show routesLoop rpow hav road rng st (c :: rest) acc
          = routesLoop rpow hav road rng st rest
              (acc.1 ++ [emptyRouteResult], acc.2.1, acc.2.2) from by
        simp only [routesLoop, if_pos hc]] at hok
      obtain ⟨rs, h1, h2, h3, h4, h5⟩ := ih _ out hok
      refine ⟨emptyRouteResult :: rs, ?_, by simpa using h2, ?_, ?_, ?_⟩
      · rw [h1, List.append_assoc]; rfl
      · simpa [emptyRouteResult] using h3
      · simpa [emptyRouteResult] using h4
      · intro j hj
        rcases j with _ | j
        · refine ⟨fun _ => rfl, fun hfalse => ?_⟩
          rw [List.getD_cons_zero] at hfalse
          rw [hc] at hfalse
          exact Bool.noConfusion hfalse
        · simpa using h5 j (by simpa using hj)
    · have hcne : c ≠ [] := by simpa [List.isEmpty_iff] using hc
      rw [show routesLoop rpow hav road rng st (c :: rest) acc
          = (calculateOptimalRoute rpow hav road rng c st).bind fun rr =>
              routesLoop rpow hav road rng st rest
                (acc.1 ++ [rr], acc.2.1 + rr.totalDistance, acc.2.2 + rr.totalDuration) from by
        simp only [routesLoop, if_neg hc]
        rfl] at hok
      rcases hcr : calculateOptimalRoute rpow hav road rng c st with e | rr
      · rw [hcr] at hok
        exact absurd hok (by simp [Except.bind])
      · rw [hcr] at hok
        have hok2 : routesLoop rpow hav road rng st rest
            (acc.1 ++ [rr], acc.2.1 + rr.totalDistance, acc.2.2 + rr.totalDuration)
            = Except.ok out := hok
        obtain ⟨rs, h1, h2, h3, h4, h5⟩ := ih _ out hok2
        refine ⟨rr :: rs, ?_, by simpa using h2, ?_, ?_, ?_⟩
        · rw [h1, List.append_assoc]; rfl
        · rw [h3]; simp; ring
        · rw [h4]; simp; ring
        · intro j hj
          rcases j with _ | j
          · refine ⟨fun htrue => absurd hc ?_, fun _ => ?_⟩
            · simpa using htrue
            · exact calculateOptimalRoute_route_ne_nil rpow hav road rng c st rr hcne hcr
          · simpa using h5 j (by simpa using hj)

/-- One assignment list per capacity entry. -/
theorem vehicleAssignmentsOf_length (points : List Point) (caps : List ℚ) :
    (vehicleAssignmentsOf points caps).length = caps.length := by
  simp [vehicleAssignmentsOf]

/-- C5 (amended): in the capacity path the returned `meanDuration` is the
total duration divided by the number of vehicles that received at least one
stop (empty vehicles contribute zero-valued entries to the per-vehicle list
but not to the divisor); in the count-only path the divisor is
`max 1 k` — the full clamped vehicle count, empty vehicles included. -/
theorem C5_mean_duration_divisors (rpow : ℚ → ℚ → ℚ) (hav : ℚ → ℚ → ℚ → ℚ → ℚ)
    (road : Point → Point → Option RouteSegment) (rng : ℕ → ℚ) :
    (∀ (points : List Point) (caps : List ℚ) (names : Option (List String))
        (st : Option Point) (r : MultiRouteResult),
        calculateOptimalRoutesWithCapacity rpow hav road rng points caps names st
          = Except.ok r →
        points ≠ [] → caps ≠ [] →
        r.totalDuration = (r.routes.map (fun x => x.totalDuration)).sum ∧
          r.routes.length = caps.length ∧
          r.meanDuration = r.totalDuration
            / (max 1 ((List.range r.routes.length).filter
                (fun i => !(r.routes.getD i emptyRouteResult).route.isEmpty)).length : ℕ)) ∧
      (∀ (points : List Point) (vc : ℚ) (st : Option Point) (r : MultiRouteResult),
        calculateOptimalRoutes rpow hav road rng points vc st = Except.ok r →
        points ≠ [] →
        r.meanDuration = r.totalDuration
          / (max 1 (Int.toNat ⌊if vc = 0 then 1 else vc⌋) : ℕ)) := by
  constructor
  · intro points caps names st r hok hpts hcaps
    have hcond : ¬ (points.length = 0 ∨ caps.length = 0) := by
      simp only [List.length_eq_zero]
      rintro (h | h)
      · exact hpts h
      · exact hcaps h
    unfold calculateOptimalRoutesWithCapacity at hok
    rw [if_neg hcond] at hok
    obtain ⟨agg, hloop, hr⟩ := except_map_ok _ _ r hok
    obtain ⟨rs, h1, h2, h3, h4, h5⟩ :=
      routesLoop_spec rpow hav road rng st (vehicleAssignmentsOf points caps) ([], 0, 0)
        agg hloop
    have hlen : rs.length = caps.length := by
      rw [h2, vehicleAssignmentsOf_length]
    have hroutes : r.routes = rs := by
      rw [hr]
      simpa using h1
    have hdur : r.totalDuration = (rs.map (fun x => x.totalDuration)).sum := by
      rw [hr]
      simpa using h4
    refine ⟨by rw [hdur, hroutes], by rw [hroutes, hlen], ?_⟩
    have hfilter : (List.range caps.length).filter
          (fun i => !((vehicleAssignmentsOf points caps).getD i []).isEmpty)
        = (List.range caps.length).filter
          (fun i => !(rs.getD i emptyRouteResult).route.isEmpty) := by
      refine List.filter_congr ?_
      intro i hi
      have hilt : i < (vehicleAssignmentsOf points caps).length := by
        rw [vehicleAssignmentsOf_length]
        exact List.mem_range.mp hi
      obtain ⟨hemp, hnemp⟩ := h5 i hilt
      rcases hb : ((vehicleAssignmentsOf points caps).getD i []).isEmpty with _ | _
      · have := hnemp hb
        rcases hroute : (rs.getD i emptyRouteResult).route with _ | ⟨x, xs⟩
        · exact absurd hroute this
        · simp [hroute]
      · have := hemp hb
        rw [this]
        simp [emptyRouteResult]
    have hmean : r.meanDuration = agg.2.2
        / (max 1 ((List.range caps.length).filter
            (fun i => !((vehicleAssignmentsOf points caps).getD i []).isEmpty)).length : ℕ) := by
      rw [hr]
    rw [hmean, hfilter, hroutes, hlen, hdur]
    congr 1
    rw [h4]
    simp
  · intro points vc st r hok hpts
    have hlen : ¬ points.length = 0 := by simpa using hpts
    unfold calculateOptimalRoutes at hok
    rw [if_neg hlen] at hok
    by_cases hk : max 1 (Int.toNat ⌊if vc = 0 then 1 else vc⌋) = 1
    · rw [if_pos hk] at hok
      obtain ⟨single, hsingle, hr⟩ := except_map_ok _ _ r hok
      rw [hr, hk]
      simp
    · rw [if_neg hk] at hok
      obtain ⟨agg, hloop, hr⟩ := except_map_ok _ _ r hok
      rw [hr]
      show agg.2.2 / ((max 1 (max 1 (Int.toNat ⌊if vc = 0 then (1 : ℚ) else vc⌋)) : ℕ) : ℚ)
        = agg.2.2 / ((max 1 (Int.toNat ⌊if vc = 0 then (1 : ℚ) else vc⌋) : ℕ) : ℚ)
      have hmax : max 1 (max 1 (Int.toNat ⌊if vc = 0 then (1 : ℚ) else vc⌋))
          = max 1 (Int.toNat ⌊if vc = 0 then (1 : ℚ) else vc⌋) := by omega
      rw [hmax]

/-- Witness for C5 at the concrete one-stop inputs. -/
theorem C5_witness :
    ((calculateOptimalRoutesWithCapacity exRpow exHav0 roadOne exRng0 [P1] [10] none (some Spt)
        = Except.ok ((calculateOptimalRoutesWithCapacity exRpow exHav0 roadOne exRng0 [P1] [10]
            none (some Spt)).toOption.getD ⟨[], 0, 0, 0, none, none, none⟩))
        ∧ ([P1] : List Point) ≠ [] ∧ ([10] : List ℚ) ≠ []) ∧
      ((calculateOptimalRoutesWithCapacity exRpow exHav0 roadOne exRng0 [P1] [10] none
          (some Spt)).toOption.getD ⟨[], 0, 0, 0, none, none, none⟩).totalDuration
        = ((((calculateOptimalRoutesWithCapacity exRpow exHav0 roadOne exRng0 [P1] [10] none
            (some Spt)).toOption.getD ⟨[], 0, 0, 0, none, none, none⟩).routes.map
          (fun x => x.totalDuration)).sum) := by
  have hok : calculateOptimalRoutesWithCapacity exRpow exHav0 roadOne exRng0 [P1] [10] none
      (some Spt)
      = Except.ok ((calculateOptimalRoutesWithCapacity exRpow exHav0 roadOne exRng0 [P1] [10]
          none (some Spt)).toOption.getD ⟨[], 0, 0, 0, none, none, none⟩) := by
    with_unfolding_all rfl
  refine ⟨⟨hok, by decide, by decide⟩, ?_⟩
  exact ((C5_mean_duration_divisors exRpow exHav0 roadOne exRng0).1 [P1] [10] none (some Spt)
    _ hok (by decide) (by decide)).1

/-- Reading a just-written cell. -/
theorem getD_set_self {α : Type} {l : List α} {i : ℕ} {a d : α} (h : i < l.length) :
    (l.set i a).getD i d = a := by
  rw [List.getD_eq_getElem?_getD, List.getElem?_set, if_pos rfl, if_pos h]
  rfl

/-- Reading another cell after a write. -/
theorem getD_set_ne {α : Type} {l : List α} {i j : ℕ} {a d : α} (h : i ≠ j) :
    (l.set i a).getD j d = l.getD j d := by
  rw [List.getD_eq_getElem?_getD, List.getElem?_set, if_neg h, ← List.getD_eq_getElem?_getD]

/-- Bumping one cell adds to the sum. -/
theorem sum_set_add : ∀ (L : List ℚ) (c : ℕ), c < L.length → ∀ (x : ℚ),
    (L.set c (L.getD c 0 + x)).sum = L.sum + x := by
  intro L
  induction L with
  | nil => intro c hc; simp at hc
  | cons a t ih =>
    intro c hc x
    rcases c with _ | c
    · simp [List.getD_cons_zero]
      ring
    · have hct : c < t.length := by simpa using hc
      simp only [List.set_cons_succ, List.getD_cons_succ, List.sum_cons]
      rw [ih c hct x]
      ring

/-- The capacity-checked nearest-centroid search only returns vehicle
indices below the centroid count. -/
theorem nearestFeasible_lt {caps loads : List ℚ} {centroids : List (ℚ × ℚ)} {p : CPt}
    {c : ℕ} (h : nearestFeasible caps loads centroids p = some c) :
    c < centroids.length := by
  unfold nearestFeasible at h
  obtain ⟨b, hb, rfl⟩ := Option.map_eq_some'.mp h
  have main : ∀ (ms : List ℕ) (acc : Option (ℕ × ℚ)),
      (∀ x ∈ ms, x < centroids.length) →
      (∀ b0, acc = some b0 → b0.1 < centroids.length) →
      ∀ b1, ms.foldl
          (fun acc c =>
            if loads.getD c 0 + p.loadMeters ≤ caps.getD c 0 then
              let ctr := centroids.getD c (0, 0)
              let d := (p.x - ctr.1) * (p.x - ctr.1) + (p.y - ctr.2) * (p.y - ctr.2)
              match acc with
              | none => some (c, d)
              | some b => if d < b.2 then some (c, d) else acc
            else acc) acc = some b1 → b1.1 < centroids.length := by
    intro ms
    induction ms with
    | nil => intro acc _ hacc b1 h1; exact hacc b1 h1
    | cons m rest ih =>
      intro acc hms hacc b1 h1
      simp only [List.foldl_cons] at h1
      refine ih _ (fun x hx => hms x (by simp [hx])) ?_ b1 h1
      intro b0 hb0
      by_cases hfeas : loads.getD m 0 + p.loadMeters ≤ caps.getD m 0
      · rw [if_pos hfeas] at hb0
        rcases acc with _ | b2
        · have : (m, (p.x - (centroids.getD m (0, 0)).1) * (p.x - (centroids.getD m (0, 0)).1)
              + (p.y - (centroids.getD m (0, 0)).2) * (p.y - (centroids.getD m (0, 0)).2)) = b0 :=
            Option.some.inj hb0
          rw [← this]
          exact hms m (by simp)
        · have hb0b : (if (p.x - (centroids.getD m (0, 0)).1) * (p.x - (centroids.getD m (0, 0)).1)
              + (p.y - (centroids.getD m (0, 0)).2) * (p.y - (centroids.getD m (0, 0)).2) < b2.2
              then some (m, (p.x - (centroids.getD m (0, 0)).1) * (p.x - (centroids.getD m (0, 0)).1)
                + (p.y - (centroids.getD m (0, 0)).2) * (p.y - (centroids.getD m (0, 0)).2))
              else some b2) = some b0 := hb0
          by_cases hlt : (p.x - (centroids.getD m (0, 0)).1) * (p.x - (centroids.getD m (0, 0)).1)
              + (p.y - (centroids.getD m (0, 0)).2) * (p.y - (centroids.getD m (0, 0)).2) < b2.2
          · rw [if_pos hlt] at hb0b
            have := Option.some.inj hb0b
            rw [← this]
            exact hms m (by simp)
          · rw [if_neg hlt] at hb0b
            exact hacc b0 hb0b
      · rw [if_neg hfeas] at hb0
        exact hacc b0 hb0
  exact main (List.range centroids.length) none (fun x hx => List.mem_range.mp hx)
    (by simp) b hb

/-- The overflow fallback always picks an existing vehicle. -/
theorem maxRemainingVehicle_lt {caps loads : List ℚ} (h : caps ≠ []) :
    maxRemainingVehicle caps loads < caps.length := by
  unfold maxRemainingVehicle
  have hpos : 0 < caps.length := List.length_pos.mpr h
  have main : ∀ (ms : List ℕ) (acc : ℕ × ℚ),
      (∀ x ∈ ms, x < caps.length) → acc.1 < caps.length →
      (ms.foldl (fun acc c =>
        let remaining := caps.getD c 0 - loads.getD c 0
        if acc.2 < remaining then (c, remaining) else acc) acc).1 < caps.length := by
    intro ms
    induction ms with
    | nil => intro acc _ hacc; exact hacc
    | cons m rest ih =>
      intro acc hms hacc
      simp only [List.foldl_cons]
      refine ih _ (fun x hx => hms x (by simp [hx])) ?_
      by_cases hlt : acc.2 < caps.getD m 0 - loads.getD m 0
      · rw [if_pos hlt]
        exact hms m (by simp)
      · rw [if_neg hlt]
        exact hacc
  refine main _ _ (fun x hx => ?_) hpos
  have := List.mem_range'_1.mp hx
  omega

/-- Reading the freshly appended cell. -/
theorem getD_append_self {α : Type} (l : List α) (a d : α) :
    (l ++ [a]).getD l.length d = a := by
  rw [List.getD_eq_getElem?_getD, List.getElem?_append_right (le_refl _)]
  simp

/-- Reading past the end gives the default. -/
theorem getD_past_end {α : Type} {l : List α} {j : ℕ} (h : l.length ≤ j) (d : α) :
    l.getD j d = d := by
  rw [List.getD_eq_getElem?_getD, List.getElem?_eq_none h]
  rfl

/-- Invariants of the first assignment pass, threaded through the fold:
lengths, the bound on assigned vehicle indices, the record of unassigned
positions, and the load accounting. -/
theorem capacityPassOneAux_spec (caps : List ℚ) (centroids : List (ℚ × ℚ))
    (hcent : centroids.length = caps.length) (ptsAll : List CPt) :
    ∀ (rest : List CPt) (temp : List (Option ℕ)) (loads : List ℚ) (un : List ℕ),
      rest = ptsAll.drop temp.length →
      loads.length = caps.length →
      (∀ j, j < temp.length → temp.getD j none = none → j ∈ un) →
      (∀ j c, temp.getD j none = some c → c < caps.length) →
      (∀ i ∈ un, i < temp.length) →
      loads.sum + (un.map fun i => (ptsAll.getD i dummyCPt).loadMeters).sum
        = ((ptsAll.take temp.length).map (fun q => q.loadMeters)).sum →
      (rest.foldl (fun acc p =>
          match nearestFeasible caps acc.2.1 centroids p with
          | some c =>
            (acc.1 ++ [some c], acc.2.1.set c (acc.2.1.getD c 0 + p.loadMeters), acc.2.2)
          | none => (acc.1 ++ [none], acc.2.1, acc.2.2 ++ [acc.1.length]))
        (temp, loads, un)).1.length = temp.length + rest.length ∧
      (rest.foldl (fun acc p =>
          match nearestFeasible caps acc.2.1 centroids p with
          | some c =>
            (acc.1 ++ [some c], acc.2.1.set c (acc.2.1.getD c 0 + p.loadMeters), acc.2.2)
          | none => (acc.1 ++ [none], acc.2.1, acc.2.2 ++ [acc.1.length]))
        (temp, loads, un)).2.1.length = caps.length ∧
      (∀ j, j < temp.length + rest.length →
        (rest.foldl (fun acc p =>
            match nearestFeasible caps acc.2.1 centroids p with
            | some c =>
              (acc.1 ++ [some c], acc.2.1.set c (acc.2.1.getD c 0 + p.loadMeters), acc.2.2)
            | none => (acc.1 ++ [none], acc.2.1, acc.2.2 ++ [acc.1.length]))
          (temp, loads, un)).1.getD j none = none →
        j ∈ (rest.foldl (fun acc p =>
            match nearestFeasible caps acc.2.1 centroids p with
            | some c =>
              (acc.1 ++ [some c], acc.2.1.set c (acc.2.1.getD c 0 + p.loadMeters), acc.2.2)
            | none => (acc.1 ++ [none], acc.2.1, acc.2.2 ++ [acc.1.length]))
          (temp, loads, un)).2.2) ∧
      (∀ j c, (rest.foldl (fun acc p =>
            match nearestFeasible caps acc.2.1 centroids p with
            | some c =>
              (acc.1 ++ [some c], acc.2.1.set c (acc.2.1.getD c 0 + p.loadMeters), acc.2.2)
            | none => (acc.1 ++ [none], acc.2.1, acc.2.2 ++ [acc.1.length]))
          (temp, loads, un)).1.getD j none = some c → c < caps.length) ∧
      (∀ i ∈ (rest.foldl (fun acc p =>
            match nearestFeasible caps acc.2.1 centroids p with
            | some c =>
              (acc.1 ++ [some c], acc.2.1.set c (acc.2.1.getD c 0 + p.loadMeters), acc.2.2)
            | none => (acc.1 ++ [none], acc.2.1, acc.2.2 ++ [acc.1.length]))
          (temp, loads, un)).2.2, i < temp.length + rest.length) ∧
      (rest.foldl (fun acc p =>
          match nearestFeasible caps acc.2.1 centroids p with
          | some c =>
            (acc.1 ++ [some c], acc.2.1.set c (acc.2.1.getD c 0 + p.loadMeters), acc.2.2)
          | none => (acc.1 ++ [none], acc.2.1, acc.2.2 ++ [acc.1.length]))
        (temp, loads, un)).2.1.sum
        + ((rest.foldl (fun acc p =>
            match nearestFeasible caps acc.2.1 centroids p with
            | some c =>
              (acc.1 ++ [some c], acc.2.1.set c (acc.2.1.getD c 0 + p.loadMeters), acc.2.2)
            | none => (acc.1 ++ [none], acc.2.1, acc.2.2 ++ [acc.1.length]))
          (temp, loads, un)).2.2.map fun i => (ptsAll.getD i dummyCPt).loadMeters).sum
        = ((ptsAll.take (temp.length + rest.length)).map (fun q => q.loadMeters)).sum := by
  intro rest
  induction rest with
  | nil =>
    intro temp loads un hrest hloads h3 h5 h6 h4
    refine ⟨by simp, by simpa using hloads, ?_, ?_, ?_, ?_⟩
    · simpa using h3
    · simpa using h5
    · simpa using h6
    · simpa using h4
  | cons p rest' ih =>
    intro temp loads un hrest hloads h3 h5 h6 h4
    have hp : ptsAll.getD temp.length dummyCPt = p := by
      rw [List.getD_eq_getElem?_getD, ← List.head?_drop, ← hrest]
      rfl
    have hrest' : rest' = ptsAll.drop (temp.length + 1) := by
      have h1 : (ptsAll.drop temp.length).drop 1 = ptsAll.drop (temp.length + 1) := by
        rw [List.drop_drop, Nat.add_comm]
      rw [← h1, ← hrest]
      rfl
    have htake : ((ptsAll.take (temp.length + 1)).map (fun q => q.loadMeters)).sum
        = ((ptsAll.take temp.length).map (fun q => q.loadMeters)).sum + p.loadMeters := by
      have hlt : temp.length < ptsAll.length := by
        by_contra hge
        rw [List.drop_eq_nil_iff.mpr (by omega)] at hrest
        exact absurd hrest (by simp)
      rw [List.take_succ]
      have : ptsAll[temp.length]? = some p := by
        rw [← List.head?_drop, ← hrest]
        rfl
      rw [this]
      simp
    simp only [List.foldl_cons]
    rcases hnf : nearestFeasible caps loads centroids p with _ | c
    · -- unassigned: record the index
      simp only [hnf]
      have hout := ih (temp ++ [none]) loads (un ++ [temp.length])
        (by simpa using hrest') hloads
        (by
          intro j hj hnone
          simp only [List.length_append, List.length_singleton] at hj
          by_cases hji : j < temp.length
          · rw [List.getD_append _ _ _ _ hji] at hnone
            exact List.mem_append_left _ (h3 j hji hnone)
          · have hjeq : j = temp.length := by omega
            subst hjeq
            exact List.mem_append_right _ (by simp))
        (by
          intro j c hsome
          by_cases hji : j < temp.length
          · rw [List.getD_append _ _ _ _ hji] at hsome
            exact h5 j c hsome
          · by_cases hjeq : j = temp.length
            · subst hjeq
              rw [getD_append_self] at hsome
              exact absurd hsome (by simp)
            · rw [getD_past_end (by simp; omega)] at hsome
              exact absurd hsome (by simp))
        (by
          intro i hi
          rcases List.mem_append.mp hi with hi1 | hi2
          · have := h6 i hi1
            simp only [List.length_append, List.length_singleton]
            omega
          · simp only [List.mem_singleton] at hi2
            subst hi2
            simp)
        (by
          rw [List.map_append, List.sum_append]
          simp only [List.map_singleton, List.sum_singleton, hp]
          rw [List.length_append, List.length_singleton, htake]
          rw [← h4]
          ring)
      simp only [List.length_append, List.length_singleton, List.length_cons, List.length_nil] at hout ⊢
      refine ⟨by rw [hout.1]; omega, hout.2.1, ?_, hout.2.2.2.1, ?_, ?_⟩
      · intro j hj
        exact hout.2.2.1 j (by omega)
      · intro i hi
        have := hout.2.2.2.2.1 i hi
        omega
      · have := hout.2.2.2.2.2
        rw [show temp.length + 1 + rest'.length = temp.length + (rest'.length + 1) from by omega]
          at this
        exact this
    · -- assigned to vehicle c
      have hc : c < caps.length := hcent ▸ nearestFeasible_lt hnf
      simp only [hnf]
      have hout := ih (temp ++ [some c]) (loads.set c (loads.getD c 0 + p.loadMeters)) un
        (by simpa using hrest')
        (by rw [List.length_set]; exact hloads)
        (by
          intro j hj hnone
          simp only [List.length_append, List.length_singleton] at hj
          by_cases hji : j < temp.length
          · rw [List.getD_append _ _ _ _ hji] at hnone
            exact h3 j hji hnone
          · have hjeq : j = temp.length := by omega
            subst hjeq
            rw [getD_append_self] at hnone
            exact absurd hnone (by simp))
        (by
          intro j c0 hsome
          by_cases hji : j < temp.length
          · rw [List.getD_append _ _ _ _ hji] at hsome
            exact h5 j c0 hsome
          · by_cases hjeq : j = temp.length
            · subst hjeq
              rw [getD_append_self] at hsome
              have : c = c0 := by simpa using hsome
              rw [← this]
              exact hc
            · rw [getD_past_end (by simp; omega)] at hsome
              exact absurd hsome (by simp))
        (by
          intro i hi
          have := h6 i hi
          simp only [List.length_append, List.length_singleton]
          omega)
        (by
          rw [sum_set_add loads c (by rw [hloads]; exact hc) p.loadMeters]
          rw [List.length_append, List.length_singleton, htake, ← h4]
          ring)
      simp only [List.length_append, List.length_singleton, List.length_cons, List.length_nil] at hout ⊢
      refine ⟨by rw [hout.1]; omega, hout.2.1, ?_, hout.2.2.2.1, ?_, ?_⟩
      · intro j hj
        exact hout.2.2.1 j (by omega)
      · intro i hi
        have := hout.2.2.2.2.1 i hi
        omega
      · have := hout.2.2.2.2.2
        rw [show temp.length + 1 + rest'.length = temp.length + (rest'.length + 1) from by omega]
          at this
        exact this

/-- Summing a zero-initialised load vector. -/
theorem sum_map_zero (caps : List ℚ) : (caps.map fun _ => (0 : ℚ)).sum = 0 := by
  induction caps with
  | nil => simp
  | cons a t ih => simp [ih]

/-- The first assignment pass: lengths, vehicle bounds, the unassigned
record, and the load accounting over the whole point list. -/
theorem capacityPassOne_spec (caps : List ℚ) (centroids : List (ℚ × ℚ)) (pts : List CPt)
    (hcent : centroids.length = caps.length) :
    (capacityPassOne caps centroids pts).1.length = pts.length ∧
      (capacityPassOne caps centroids pts).2.1.length = caps.length ∧
      (∀ j, j < pts.length → (capacityPassOne caps centroids pts).1.getD j none = none →
        j ∈ (capacityPassOne caps centroids pts).2.2) ∧
      (∀ j c, (capacityPassOne caps centroids pts).1.getD j none = some c →
        c < caps.length) ∧
      (∀ i ∈ (capacityPassOne caps centroids pts).2.2, i < pts.length) ∧
      (capacityPassOne caps centroids pts).2.1.sum
        + ((capacityPassOne caps centroids pts).2.2.map
            fun i => (pts.getD i dummyCPt).loadMeters).sum
        = (pts.map fun q => q.loadMeters).sum := by
  have haux := capacityPassOneAux_spec caps centroids hcent pts pts []
    (caps.map fun _ => 0) [] (by simp) (by simp)
    (by intro j hj; simp at hj)
    (by intro j c hsome; rw [getD_past_end (by simp)] at hsome; exact absurd hsome (by simp))
    (by intro i hi; simp at hi)
    (by rw [sum_map_zero]; simp)
  simp only [List.length_nil, Nat.zero_add, List.take_length] at haux
  exact haux

/-- The force-assignment pass: lengths, the load accounting, and the way it
turns exactly the recorded indices from `none` into in-range vehicle
assignments. -/
theorem capacityPassTwo_spec (caps : List ℚ) (pts : List CPt) (hcaps : caps ≠ []) :
    ∀ (idxs : List ℕ) (temp : List (Option ℕ)) (loads : List ℚ),
      loads.length = caps.length →
      (∀ i ∈ idxs, i < temp.length) →
      (capacityPassTwo caps pts idxs (temp, loads)).1.length = temp.length ∧
        (capacityPassTwo caps pts idxs (temp, loads)).2.length = caps.length ∧
        (capacityPassTwo caps pts idxs (temp, loads)).2.sum
          = loads.sum + (idxs.map fun i => (pts.getD i dummyCPt).loadMeters).sum ∧
        (∀ j, (capacityPassTwo caps pts idxs (temp, loads)).1.getD j none = none →
          temp.getD j none = none ∧ j ∉ idxs) ∧
        (∀ j c, (capacityPassTwo caps pts idxs (temp, loads)).1.getD j none = some c →
          temp.getD j none = some c ∨ c < caps.length) := by
  intro idxs
  induction idxs with
  | nil =>
    intro temp loads hloads _
    exact ⟨rfl, hloads, by simp [capacityPassTwo], fun j h => ⟨h, by simp⟩,
      fun j c h => Or.inl h⟩
  | cons i rest ih =>
    intro temp loads hloads hbound
    have hi : i < temp.length := hbound i (by simp)
    have hc : maxRemainingVehicle caps loads < caps.length := maxRemainingVehicle_lt hcaps
    simp only [capacityPassTwo]
    have hout := ih (temp.set i (some (maxRemainingVehicle caps loads)))
      (loads.set (maxRemainingVehicle caps loads)
        (loads.getD (maxRemainingVehicle caps loads) 0 + (pts.getD i dummyCPt).loadMeters))
      (by rw [List.length_set]; exact hloads)
      (by intro i2 hi2; rw [List.length_set]; exact hbound i2 (by simp [hi2]))
    refine ⟨by rw [hout.1, List.length_set], hout.2.1, ?_, ?_, ?_⟩
    · rw [hout.2.2.1, sum_set_add loads _ (by rw [hloads]; exact hc)]
      simp only [List.map_cons, List.sum_cons]
      ring
    · intro j hj
      obtain ⟨hnone, hnotin⟩ := hout.2.2.2.1 j hj
      by_cases hji : i = j
      · subst hji
        rw [getD_set_self hi] at hnone
        exact absurd hnone (by simp)
      · rw [getD_set_ne hji] at hnone
        refine ⟨hnone, ?_⟩
        simp only [List.mem_cons]
        rintro (rfl | hmem)
        · exact hji rfl
        · exact hnotin hmem
    · intro j c hsome
      rcases hout.2.2.2.2 j c hsome with hold | hlt
      · by_cases hji : i = j
        · subst hji
          rw [getD_set_self hi] at hold
          have : maxRemainingVehicle caps loads = c := by simpa using hold
          exact Or.inr (this ▸ hc)
        · rw [getD_set_ne hji] at hold
          exact Or.inl hold
      · exact Or.inr hlt

/-- The centroid update keeps the number of centroids. -/
theorem capacityClusterUpdate_length (pts : List CPt) (temp : List (Option ℕ))
    (centroids : List (ℚ × ℚ)) :
    (capacityClusterUpdate pts temp centroids).1.length = centroids.length := by
  simp [capacityClusterUpdate]

/-- One clustering round (pass one then pass two) leaves every point
assigned to some in-range vehicle and accounts for every load. -/
theorem capacityIteration_spec (caps : List ℚ) (centroids : List (ℚ × ℚ)) (pts : List CPt)
    (hcaps : caps ≠ []) (hcent : centroids.length = caps.length) :
    (capacityPassTwo caps pts (capacityPassOne caps centroids pts).2.2
        ((capacityPassOne caps centroids pts).1,
          (capacityPassOne caps centroids pts).2.1)).1.length = pts.length ∧
      (capacityPassTwo caps pts (capacityPassOne caps centroids pts).2.2
        ((capacityPassOne caps centroids pts).1,
          (capacityPassOne caps centroids pts).2.1)).2.length = caps.length ∧
      (∀ j, j < pts.length → ∃ c,
        (capacityPassTwo caps pts (capacityPassOne caps centroids pts).2.2
          ((capacityPassOne caps centroids pts).1,
            (capacityPassOne caps centroids pts).2.1)).1.getD j none = some c ∧
        c < caps.length) ∧
      (capacityPassTwo caps pts (capacityPassOne caps centroids pts).2.2
        ((capacityPassOne caps centroids pts).1,
          (capacityPassOne caps centroids pts).2.1)).2.sum
        = (pts.map fun q => q.loadMeters).sum := by
  obtain ⟨h1, h2, h3, h4, h5, h6⟩ := capacityPassOne_spec caps centroids pts hcent
  obtain ⟨g1, g2, g3, g4, g5⟩ := capacityPassTwo_spec caps pts hcaps
    (capacityPassOne caps centroids pts).2.2 (capacityPassOne caps centroids pts).1
    (capacityPassOne caps centroids pts).2.1 h2
    (by intro i hi; rw [h1]; exact h5 i hi)
  refine ⟨g1.trans h1, g2, ?_, by rw [g3, h6]⟩
  intro j hj
  rcases hres : (capacityPassTwo caps pts (capacityPassOne caps centroids pts).2.2
      ((capacityPassOne caps centroids pts).1,
        (capacityPassOne caps centroids pts).2.1)).1.getD j none with _ | c
  · obtain ⟨hnone, hnotin⟩ := g4 j hres
    exact absurd (h3 j hj hnone) hnotin
  · refine ⟨c, rfl, ?_⟩
    rcases g5 j c hres with hold | hlt
    · exact h4 j c hold
    · exact hlt

/-- Out of fuel, the clustering loop returns its state unchanged. -/
theorem capacityClusterLoop_zero (caps : List ℚ) (pts : List CPt)
    (centroids : List (ℚ × ℚ)) (st0 : List (Option ℕ) × List ℚ) :
    capacityClusterLoop caps pts 0 centroids st0 = st0 := rfl

/-- One unfolding step of the clustering loop. -/
theorem capacityClusterLoop_succ (caps : List ℚ) (pts : List CPt) (fuel : ℕ)
    (centroids : List (ℚ × ℚ)) (st0 : List (Option ℕ) × List ℚ) :
    capacityClusterLoop caps pts (fuel + 1) centroids st0 =
      if (capacityClusterUpdate pts
            (capacityPassTwo caps pts (capacityPassOne caps centroids pts).2.2
              ((capacityPassOne caps centroids pts).1,
                (capacityPassOne caps centroids pts).2.1)).1 centroids).2 then
        capacityClusterLoop caps pts fuel
          (capacityClusterUpdate pts
            (capacityPassTwo caps pts (capacityPassOne caps centroids pts).2.2
              ((capacityPassOne caps centroids pts).1,
                (capacityPassOne caps centroids pts).2.1)).1 centroids).1
          (capacityPassTwo caps pts (capacityPassOne caps centroids pts).2.2
            ((capacityPassOne caps centroids pts).1,
              (capacityPassOne caps centroids pts).2.1))
      else
        capacityPassTwo caps pts (capacityPassOne caps centroids pts).2.2
          ((capacityPassOne caps centroids pts).1,
            (capacityPassOne caps centroids pts).2.1) := rfl

/-- Any positive amount of fuel in the clustering loop produces a complete
in-range assignment whose per-vehicle loads sum to the total demand. -/
theorem capacityClusterLoop_spec (caps : List ℚ) (pts : List CPt) (hcaps : caps ≠ []) :
    ∀ (fuel : ℕ) (centroids : List (ℚ × ℚ)) (st0 : List (Option ℕ) × List ℚ),
      centroids.length = caps.length →
      (capacityClusterLoop caps pts (fuel + 1) centroids st0).1.length = pts.length ∧
        (capacityClusterLoop caps pts (fuel + 1) centroids st0).2.length = caps.length ∧
        (∀ j, j < pts.length → ∃ c,
          (capacityClusterLoop caps pts (fuel + 1) centroids st0).1.getD j none = some c ∧
          c < caps.length) ∧
        (capacityClusterLoop caps pts (fuel + 1) centroids st0).2.sum
          = (pts.map fun q => q.loadMeters).sum := by
  intro fuel
  induction fuel with
  | zero =>
    intro centroids st0 hcent
    rw [capacityClusterLoop_succ]
    split
    · rw [capacityClusterLoop_zero]
      exact capacityIteration_spec caps centroids pts hcaps hcent
    · exact capacityIteration_spec caps centroids pts hcaps hcent
  | succ k ih =>
    intro centroids st0 hcent
    rw [capacityClusterLoop_succ]
    split
    · refine ih _ _ ?_
      rw [capacityClusterUpdate_length]
      exact hcent
    · exact capacityIteration_spec caps centroids pts hcaps hcent

/-- Sorting by descending load permutes the point list. -/
theorem sortByLoadDesc_perm (points : List Point) :
    (sortByLoadDesc points).Perm points :=
  List.mergeSort_perm points _

/-- The full clustering stage: every sorted point gets an in-range vehicle
and the per-vehicle loads sum to the total demand of the original points. -/
theorem runCapacityCluster_spec (points : List Point) (caps : List ℚ)
    (hcaps : caps ≠ []) :
    (runCapacityCluster points caps).1.length = points.length ∧
      (runCapacityCluster points caps).2.length = caps.length ∧
      (∀ j, j < points.length → ∃ c,
        (runCapacityCluster points caps).1.getD j none = some c ∧ c < caps.length) ∧
      (runCapacityCluster points caps).2.sum
        = (points.map fun p => p.loadMeters.getD 0).sum := by
  have hlen : ((sortByLoadDesc points).map toCPt).length = points.length := by
    rw [List.length_map]
    exact (sortByLoadDesc_perm points).length_eq
  have h := capacityClusterLoop_spec caps ((sortByLoadDesc points).map toCPt) hcaps 19
    ((List.range caps.length).map fun i =>
      let p := ((sortByLoadDesc points).map toCPt).getD
        (min (i * (((sortByLoadDesc points).map toCPt).length / caps.length))
          (((sortByLoadDesc points).map toCPt).length - 1)) dummyCPt
      (p.x, p.y))
    (List.replicate ((sortByLoadDesc points).map toCPt).length (some 0),
      caps.map fun _ => 0)
    (by simp)
  obtain ⟨h1, h2, h3, h4⟩ := h
  have hsum : (((sortByLoadDesc points).map toCPt).map fun q => q.loadMeters).sum
      = (points.map fun p => p.loadMeters.getD 0).sum := by
    rw [List.map_map]
    exact List.Perm.sum_eq ((sortByLoadDesc_perm points).map _)
  refine ⟨?_, ?_, ?_, ?_⟩
  · rw [← hlen]; exact h1
  · exact h2
  · intro j hj
    rw [← hlen] at hj
    exact h3 j hj
  · rw [← hsum]; exact h4

/-- Joining pointwise-appended lists splits into two joins, up to
permutation. -/
theorem join_map_append {α β : Type} (ks : List α) (F G : α → List β) :
    (ks.map fun c => F c ++ G c).flatten.Perm
      ((ks.map F).flatten ++ (ks.map G).flatten) := by
  induction ks with
  | nil => simp
  | cons a t ih =>
    simp only [List.map_cons, List.flatten_cons]
    refine (List.Perm.append_left (F a ++ G a) ih).trans ?_
    rw [List.append_assoc, List.append_assoc]
    refine List.Perm.append_left (F a) ?_
    rw [← List.append_assoc, ← List.append_assoc]
    exact List.perm_append_comm.append_right _

/-- A singleton indicator over keys not containing the hit joins to
nothing. -/
theorem join_map_indicator_nil {β : Type} (a : β) :
    ∀ (t : List ℕ) (c0 : ℕ), c0 ∉ t →
      (t.map fun c => if c0 = c then [a] else []).flatten = [] := by
  intro t
  induction t with
  | nil => intro c0 _; rfl
  | cons b s ih =>
    intro c0 h
    simp only [List.mem_cons, not_or] at h
    simp only [List.map_cons, List.flatten_cons, if_neg h.1, List.nil_append]
    exact ih c0 h.2

/-- A singleton indicator over distinct keys containing the hit joins to
exactly that singleton. -/
theorem join_map_indicator {β : Type} (a : β) :
    ∀ (ks : List ℕ) (c0 : ℕ), ks.Nodup → c0 ∈ ks →
      (ks.map fun c => if c0 = c then [a] else []).flatten = [a] := by
  intro ks
  induction ks with
  | nil => intro c0 _ h; simp at h
  | cons b t ih =>
    intro c0 hnd hmem
    simp only [List.map_cons, List.flatten_cons]
    rcases List.mem_cons.mp hmem with rfl | hmem2
    · rw [if_pos rfl, join_map_indicator_nil a t c0 (List.nodup_cons.mp hnd).1]
      rfl
    · have hne : c0 ≠ b := by
        rintro rfl
        exact (List.nodup_cons.mp hnd).1 hmem2
      rw [if_neg hne, List.nil_append]
      exact ih c0 (List.nodup_cons.mp hnd).2 hmem2

/-- Partitioning the indices `0..m-1` into the fibers of an assignment
with values below `k` and joining the fibers permutes the mapped list. -/
theorem fibers_join_perm {β : Type} (f : ℕ → β) (k : ℕ) :
    ∀ (m : ℕ) (g : ℕ → ℕ), (∀ i, i < m → g i < k) →
      ((List.range k).map fun c =>
        (List.range m).filterMap fun i =>
          if g i = c then some (f i) else none).flatten.Perm ((List.range m).map f) := by
  intro m
  induction m with
  | zero => intro g _; simp
  | succ n ih =>
    intro g hg
    have hsplit : ∀ c : ℕ, (List.range (n + 1)).filterMap
        (fun i => if g i = c then some (f i) else none)
        = ((List.range n).filterMap fun i => if g i = c then some (f i) else none)
          ++ (if g n = c then [f n] else []) := by
      intro c
      rw [List.range_succ, List.filterMap_append]
      congr 1
      by_cases h : g n = c
      · rw [if_pos h]
        simp [List.filterMap_cons, h]
      · rw [if_neg h]
        simp [List.filterMap_cons, h]
    rw [List.map_congr_left fun c _ => hsplit c]
    refine (join_map_append (List.range k) _ _).trans ?_
    rw [join_map_indicator (f n) (List.range k) (g n) (List.nodup_range k)
      (List.mem_range.mpr (hg n (Nat.lt_succ_self n)))]
    rw [List.range_succ, List.map_append]
    exact (ih g fun i hi => hg i (Nat.lt_succ_of_lt hi)).append_right [f n]

/-- With pairwise-distinct ids, looking a point's id back up in the list
returns that point. -/
theorem findById_self : ∀ (points : List Point), (points.map Point.id).Nodup →
    ∀ q ∈ points, findById points q.id = q := by
  intro points
  induction points with
  | nil => intro _ q hq; simp at hq
  | cons a t ih =>
    intro hnd q hq
    rcases List.mem_cons.mp hq with rfl | hmem
    · unfold findById
      rw [List.find?_cons_of_pos _ (by simp)]
      rfl
    · have hne : (a.id == q.id) = false := by
        rw [beq_eq_false_iff_ne]
        intro he
        have hin : q.id ∈ t.map Point.id := List.mem_map_of_mem _ hmem
        rw [List.map_cons, List.nodup_cons] at hnd
        exact hnd.1 (he ▸ hin)
      unfold findById
      rw [List.find?_cons_of_neg _ (by simp [hne])]
      have hnd2 : (t.map Point.id).Nodup := by
        rw [List.map_cons, List.nodup_cons] at hnd
        exact hnd.2
      exact ih hnd2 q hmem

/-- Reading every index of a list back out of it reproduces the list. -/
theorem map_getD_range {α : Type} (l : List α) (d : α) :
    (List.range l.length).map (fun i => l.getD i d) = l := by
  apply List.ext_getElem
  · simp
  · intro i h1 h2
    simp only [List.getElem_map, List.getElem_range]
    exact List.getD_eq_getElem l d h2

/-- Mapping a function over every indexed read reproduces the mapped
list. -/
theorem map_comp_getD_range {α β : Type} (l : List α) (d : α) (F : α → β) :
    (List.range l.length).map (fun i => F (l.getD i d)) = l.map F := by
  conv_rhs => rw [← map_getD_range l d]
  rw [List.map_map]
  rfl

/-- With a non-empty capacity list and pairwise-distinct ids, the
per-vehicle assignment lists of the capacity clusterer concatenate to a
permutation of the original stop list. -/
theorem vehicleAssignmentsOf_join_perm (points : List Point) (caps : List ℚ)
    (hcaps : caps ≠ []) (hnodup : (points.map Point.id).Nodup) :
    (vehicleAssignmentsOf points caps).flatten.Perm points := by
  obtain ⟨h1, _h2, h3, _h4⟩ := runCapacityCluster_spec points caps hcaps
  have hlen : ((sortByLoadDesc points).map toCPt).length = points.length := by
    rw [List.length_map]
    exact (sortByLoadDesc_perm points).length_eq
  have h0 : vehicleAssignmentsOf points caps
      = (List.range caps.length).map fun c =>
          (List.range ((sortByLoadDesc points).map toCPt).length).filterMap fun i =>
            if (runCapacityCluster points caps).1.getD i none = some c then
              some (findById points
                ((((sortByLoadDesc points).map toCPt).getD i dummyCPt).id))
            else none := rfl
  have hform : vehicleAssignmentsOf points caps
      = (List.range caps.length).map fun c =>
          (List.range ((sortByLoadDesc points).map toCPt).length).filterMap fun i =>
            if ((runCapacityCluster points caps).1.getD i none).getD 0 = c then
              some (findById points
                ((((sortByLoadDesc points).map toCPt).getD i dummyCPt).id))
            else none := by
    rw [h0]
    apply List.map_congr_left
    intro c _
    apply List.filterMap_congr
    intro i hi
    have hip : i < points.length := by
      rw [← hlen]
      exact List.mem_range.mp hi
    obtain ⟨ci, hci, _hcil⟩ := h3 i hip
    rw [hci]
    simp only [Option.getD_some]
    by_cases h : ci = c
    · subst h
      simp
    · simp [h]
  rw [hform]
  refine (fibers_join_perm _ caps.length ((sortByLoadDesc points).map toCPt).length
    (fun i => ((runCapacityCluster points caps).1.getD i none).getD 0) ?_).trans ?_
  · intro i hi
    have hip : i < points.length := by
      rw [← hlen]
      exact hi
    obtain ⟨ci, hci, hcil⟩ := h3 i hip
    simp only [hci, Option.getD_some]
    exact hcil
  · rw [map_comp_getD_range ((sortByLoadDesc points).map toCPt) dummyCPt
      (fun q => findById points q.id), List.map_map]
    have hmap3 : ((sortByLoadDesc points).map fun p => findById points p.id)
        = sortByLoadDesc points := by
      conv_rhs => rw [← List.map_id (sortByLoadDesc points)]
      apply List.map_congr_left
      intro p hp
      exact findById_self points hnodup p ((sortByLoadDesc_perm points).mem_iff.mp hp)
    have hcomp : ((sortByLoadDesc points).map ((fun q => findById points q.id) ∘ toCPt))
        = (sortByLoadDesc points).map fun p => findById points p.id := rfl
    rw [hcomp, hmap3]
    exact sortByLoadDesc_perm points

/-- C3: for every stop list with pairwise-distinct ids and every non-empty
capacity list, the capacity clusterer of
`calculateOptimalRoutesWithCapacity` assigns every stop to exactly one
vehicle — the concatenation of the per-vehicle assignment lists
(`vehicleAssignmentsOf`) is a permutation of the stop list, so no stop is
unassigned or double-assigned — and the per-vehicle loads returned by
`runCapacityCluster` sum to the total demand (loadMeters, 0 when absent),
with no hypothesis bounding demand by capacity: overflow never breaks the
assignment. -/
theorem C3_capacity_clustering_complete (points : List Point) (caps : List ℚ)
    (hcaps : caps ≠ []) (hnodup : (points.map Point.id).Nodup) :
    (vehicleAssignmentsOf points caps).flatten.Perm points ∧
      (runCapacityCluster points caps).2.sum
        = (points.map fun p => p.loadMeters.getD 0).sum :=
  ⟨vehicleAssignmentsOf_join_perm points caps hcaps hnodup,
    (runCapacityCluster_spec points caps hcaps).2.2.2⟩

/-- Concrete instance of `C3_capacity_clustering_complete`: two stops with
total demand 3 and one vehicle of capacity 10. -/
theorem C3_witness :
    (([(10 : ℚ)] : List ℚ) ≠ [] ∧ ([P1, P2].map Point.id).Nodup) ∧
      ((vehicleAssignmentsOf [P1, P2] [(10 : ℚ)]).flatten.Perm [P1, P2] ∧
        (runCapacityCluster [P1, P2] [(10 : ℚ)]).2.sum
          = ([P1, P2].map fun p => p.loadMeters.getD 0).sum) :=
  ⟨⟨by simp, by decide⟩,
    C3_capacity_clustering_complete [P1, P2] [(10 : ℚ)] (by simp) (by decide)⟩
